import Mathlib

/-!
Verification of the Fastly service reconciliation engine
(`resourceServiceV1Update` and its helpers) as a shallow embedding.

The Terraform `ResourceData` is modelled as a pair of desired states
(`old` = previously applied, `new` = newly desired); `d.HasChange(k)`
becomes inequality of the corresponding fields, with `schema.Set`
valued attributes compared as sets.  Every network call issued through
the `gofastly` connection is recorded as an event (`Ev`); the network
backend is an oracle (`Conn`) deciding the outcome of each call.  The
update function returns the list of calls issued, in order, together
with either the propagated error or the version number written back to
`active_version` (`Except String (Option Nat)`, where `.ok none` means
the no-change path that never activates).
-/

namespace Fastly

/-- Go's `uint(x)` conversion applied to an `int` value: reduction mod 2^64. -/
def goUint (i : Int) : Nat := (i.emod (2 ^ 64)).toNat

/-! ### Raw configuration records (one per `schema.Set` attribute)

Field sets follow the resource schema in `resourceServiceV1` and the
values read by `resourceServiceV1Update` (`cf["name"].(string)`, ...). -/

structure Condition where
  name : String
  statement : String
  priority : Int
  type : String
deriving DecidableEq, Repr

structure Domain where
  name : String
  comment : String
deriving DecidableEq, Repr

structure Healthcheck where
  name : String
  host : String
  path : String
  checkInterval : Int
  expectedResponse : Int
  httpVersion : String
  initial : Int
  method : String
  threshold : Int
  timeout : Int
  window : Int
deriving DecidableEq, Repr

structure Backend where
  name : String
  address : String
  autoLoadbalance : Bool
  betweenBytesTimeout : Int
  connectTimeout : Int
  errorThreshold : Int
  firstByteTimeout : Int
  maxConn : Int
  port : Int
  shield : String
  sslCheckCert : Bool
  sslHostname : String
  sslCertHostname : String
  sslSNIHostname : String
  weight : Int
  requestCondition : String
  healthcheck : String
deriving DecidableEq, Repr

structure HeaderRec where
  name : String
  action : String
  ignoreIfSet : Bool
  type : String
  destination : String
  source : String
  regex : String
  substitution : String
  priority : Int
  requestCondition : String
  cacheCondition : String
  responseCondition : String
deriving DecidableEq, Repr

structure Gzip where
  name : String
  contentTypes : List String
  extensions : List String
  cacheCondition : String
deriving DecidableEq, Repr

structure S3 where
  name : String
  bucketName : String
  accessKey : String
  secretKey : String
  path : String
  period : Int
  domain : String
  gzipLevel : Int
  format : String
  formatVersion : Int
  timestampFormat : String
  responseCondition : String
deriving DecidableEq, Repr

structure Papertrail where
  name : String
  address : String
  port : Int
  format : String
  responseCondition : String
deriving DecidableEq, Repr

structure Sumologic where
  name : String
  url : String
  format : String
  formatVersion : Int
  responseCondition : String
  messageType : String
deriving DecidableEq, Repr

structure GCS where
  name : String
  email : String
  bucketName : String
  secretKey : String
  path : String
  period : Int
  gzipLevel : Int
  format : String
  timestampFormat : String
  responseCondition : String
deriving DecidableEq, Repr

structure ResponseObject where
  name : String
  status : Int
  response : String
  content : String
  contentType : String
  requestCondition : String
  cacheCondition : String
deriving DecidableEq, Repr

structure RequestSetting where
  name : String
  requestCondition : String
  maxStaleAge : Int
  forceMiss : Bool
  forceSSL : Bool
  action : String
  bypassBusyWait : Bool
  hashKeys : String
  xff : String
  timerSupport : Bool
  geoHeaders : Bool
  defaultHost : String
deriving DecidableEq, Repr

structure VCLRec where
  name : String
  content : String
  main : Bool
deriving DecidableEq, Repr

structure CacheSetting where
  name : String
  action : String
  cacheCondition : String
  staleTTL : Int
  ttl : Int
deriving DecidableEq, Repr

/-! ### Create-call inputs (the `gofastly.Create*Input` payloads, minus
the `Service`/`Version` fields, which the events carry separately) -/

structure ConditionOpts where
  name : String
  type : String
  statement : String
  priority : Int
deriving DecidableEq, Repr

/-- `CreateConditionInput` from a raw record; the statement is
trimmed (`strings.TrimSpace`) to strip HEREDOC newlines. -/
def mkConditionOpts (c : Condition) : ConditionOpts :=
  { name := c.name, type := c.type, statement := c.statement.trim
    priority := c.priority }

structure DomainOpts where
  name : String
  comment : String
deriving DecidableEq, Repr

def mkDomainOpts (d : Domain) : DomainOpts :=
  { name := d.name, comment := d.comment }

structure HealthcheckOpts where
  name : String
  host : String
  path : String
  checkInterval : Nat
  expectedResponse : Nat
  httpVersion : String
  initial : Nat
  method : String
  threshold : Nat
  timeout : Nat
  window : Nat
deriving DecidableEq, Repr

def mkHealthcheckOpts (h : Healthcheck) : HealthcheckOpts :=
  { name := h.name, host := h.host, path := h.path
    checkInterval := goUint h.checkInterval
    expectedResponse := goUint h.expectedResponse
    httpVersion := h.httpVersion, initial := goUint h.initial
    method := h.method, threshold := goUint h.threshold
    timeout := goUint h.timeout, window := goUint h.window }

structure BackendOpts where
  name : String
  address : String
  autoLoadbalance : Bool
  sslCheckCert : Bool
  sslHostname : String
  sslCertHostname : String
  sslSNIHostname : String
  shield : String
  port : Nat
  betweenBytesTimeout : Nat
  connectTimeout : Nat
  errorThreshold : Nat
  firstByteTimeout : Nat
  maxConn : Nat
  weight : Nat
  requestCondition : String
  healthcheck : String
deriving DecidableEq, Repr

def mkBackendOpts (b : Backend) : BackendOpts :=
  { name := b.name, address := b.address
    autoLoadbalance := b.autoLoadbalance, sslCheckCert := b.sslCheckCert
    sslHostname := b.sslHostname, sslCertHostname := b.sslCertHostname
    sslSNIHostname := b.sslSNIHostname, shield := b.shield
    port := goUint b.port, betweenBytesTimeout := goUint b.betweenBytesTimeout
    connectTimeout := goUint b.connectTimeout
    errorThreshold := goUint b.errorThreshold
    firstByteTimeout := goUint b.firstByteTimeout
    maxConn := goUint b.maxConn, weight := goUint b.weight
    requestCondition := b.requestCondition, healthcheck := b.healthcheck }

structure HeaderOpts where
  name : String
  action : String
  ignoreIfSet : Bool
  type : String
  destination : String
  source : String
  regex : String
  substitution : String
  priority : Nat
  requestCondition : String
  cacheCondition : String
  responseCondition : String
deriving DecidableEq, Repr

/-- Modelled from the spec: `buildHeader` is not among the provided
sources (only its caller is).  Per §4.2 it validates a header record's
field combination — the `action` determines which of
`source`/`regex`/`substitution` are meaningful — returning a create
request or a validation error, never a network error. -/
def buildHeader (h : HeaderRec) : Except String HeaderOpts :=
  if h.action ∈ ["set", "append", "delete", "regex", "regex_repeat"] then
    .ok { name := h.name, action := h.action, ignoreIfSet := h.ignoreIfSet
          type := h.type, destination := h.destination, source := h.source
          regex := h.regex, substitution := h.substitution
          priority := goUint h.priority
          requestCondition := h.requestCondition
          cacheCondition := h.cacheCondition
          responseCondition := h.responseCondition }
  else
    .error ("invalid header action " ++ h.action)

structure GzipOpts where
  name : String
  cacheCondition : String
  contentTypes : String
  extensions : String
deriving DecidableEq, Repr

/-- `CreateGzipInput`: the content-type and extension sets are joined
with single spaces (empty set stays the empty string). -/
def mkGzipOpts (g : Gzip) : GzipOpts :=
  { name := g.name, cacheCondition := g.cacheCondition
    contentTypes := String.intercalate " " g.contentTypes
    extensions := String.intercalate " " g.extensions }

structure S3Opts where
  name : String
  bucketName : String
  accessKey : String
  secretKey : String
  period : Nat
  gzipLevel : Nat
  domain : String
  path : String
  format : String
  formatVersion : Nat
  timestampFormat : String
  responseCondition : String
deriving DecidableEq, Repr

def mkS3Opts (s : S3) : S3Opts :=
  { name := s.name, bucketName := s.bucketName, accessKey := s.accessKey
    secretKey := s.secretKey, period := goUint s.period
    gzipLevel := goUint s.gzipLevel, domain := s.domain, path := s.path
    format := s.format, formatVersion := goUint s.formatVersion
    timestampFormat := s.timestampFormat
    responseCondition := s.responseCondition }

structure PapertrailOpts where
  name : String
  address : String
  port : Nat
  format : String
  responseCondition : String
deriving DecidableEq, Repr

def mkPapertrailOpts (p : Papertrail) : PapertrailOpts :=
  { name := p.name, address := p.address, port := goUint p.port
    format := p.format, responseCondition := p.responseCondition }

structure SumologicOpts where
  name : String
  url : String
  format : String
  formatVersion : Int
  responseCondition : String
  messageType : String
deriving DecidableEq, Repr

def mkSumologicOpts (s : Sumologic) : SumologicOpts :=
  { name := s.name, url := s.url, format := s.format
    formatVersion := s.formatVersion
    responseCondition := s.responseCondition
    messageType := s.messageType }

structure GCSOpts where
  name : String
  user : String
  bucket : String
  secretKey : String
  format : String
  responseCondition : String
deriving DecidableEq, Repr

/-- `CreateGCSInput` only carries a subset of the record's fields. -/
def mkGCSOpts (g : GCS) : GCSOpts :=
  { name := g.name, user := g.email, bucket := g.bucketName
    secretKey := g.secretKey, format := g.format
    responseCondition := g.responseCondition }

structure ResponseObjectOpts where
  name : String
  status : Nat
  response : String
  content : String
  contentType : String
  requestCondition : String
  cacheCondition : String
deriving DecidableEq, Repr

def mkResponseObjectOpts (r : ResponseObject) : ResponseObjectOpts :=
  { name := r.name, status := goUint r.status, response := r.response
    content := r.content, contentType := r.contentType
    requestCondition := r.requestCondition
    cacheCondition := r.cacheCondition }

structure RequestSettingOpts where
  name : String
  requestCondition : String
  maxStaleAge : Nat
  forceMiss : Bool
  forceSSL : Bool
  action : String
  bypassBusyWait : Bool
  hashKeys : String
  xff : String
  timerSupport : Bool
  geoHeaders : Bool
  defaultHost : String
deriving DecidableEq, Repr

/-- Modelled from the spec: `buildRequestSetting` is not among the
provided sources (only its caller is).  Per §4.2 it is a per-kind
validator/translator that can reject an inconsistent field
combination; the `action` selector is validated here. -/
def buildRequestSetting (r : RequestSetting) : Except String RequestSettingOpts :=
  if r.action ∈ ["", "lookup", "pass"] then
    .ok { name := r.name, requestCondition := r.requestCondition
          maxStaleAge := goUint r.maxStaleAge, forceMiss := r.forceMiss
          forceSSL := r.forceSSL, action := r.action
          bypassBusyWait := r.bypassBusyWait, hashKeys := r.hashKeys
          xff := r.xff, timerSupport := r.timerSupport
          geoHeaders := r.geoHeaders, defaultHost := r.defaultHost }
  else
    .error ("invalid request setting action " ++ r.action)

structure VCLOpts where
  name : String
  content : String
deriving DecidableEq, Repr

/-- `CreateVCLInput` carries only the name and content (not `main`;
main-ness is applied through the separate activate-VCL call). -/
def mkVCLOpts (v : VCLRec) : VCLOpts :=
  { name := v.name, content := v.content }

structure CacheSettingOpts where
  name : String
  action : String
  cacheCondition : String
  staleTTL : Nat
  ttl : Nat
deriving DecidableEq, Repr

/-- Modelled from the spec: `buildCacheSetting` is not among the
provided sources (only its caller is).  Per §4.2 it is a per-kind
validator/translator that can reject an inconsistent field
combination; the `action` selector is validated here. -/
def buildCacheSetting (c : CacheSetting) : Except String CacheSettingOpts :=
  if c.action ∈ ["", "cache", "pass", "restart"] then
    .ok { name := c.name, action := c.action
          cacheCondition := c.cacheCondition
          staleTTL := goUint c.staleTTL, ttl := goUint c.ttl }
  else
    .error ("invalid cache setting action " ++ c.action)

/-! ### Network call events

One constructor per operation issued through the `gofastly` connection.
Delete calls carry only the record name (`Delete*Input`), create calls
carry the built input payload. -/

inductive Ev where
  | updateService (name : String)
  | cloneVersion (fromVersion : Nat)
  | sleep (seconds : Nat)
  | updateSettings (version : Nat) (defaultHost : String) (defaultTTL : Nat)
  | deleteCondition (version : Nat) (name : String)
  | createCondition (version : Nat) (opts : ConditionOpts)
  | deleteDomain (version : Nat) (name : String)
  | createDomain (version : Nat) (opts : DomainOpts)
  | deleteHealthcheck (version : Nat) (name : String)
  | createHealthcheck (version : Nat) (opts : HealthcheckOpts)
  | deleteBackend (version : Nat) (name : String)
  | createBackend (version : Nat) (opts : BackendOpts)
  | deleteHeader (version : Nat) (name : String)
  | createHeader (version : Nat) (opts : HeaderOpts)
  | deleteGzip (version : Nat) (name : String)
  | createGzip (version : Nat) (opts : GzipOpts)
  | deleteS3 (version : Nat) (name : String)
  | createS3 (version : Nat) (opts : S3Opts)
  | deletePapertrail (version : Nat) (name : String)
  | createPapertrail (version : Nat) (opts : PapertrailOpts)
  | deleteSumologic (version : Nat) (name : String)
  | createSumologic (version : Nat) (opts : SumologicOpts)
  | deleteGCS (version : Nat) (name : String)
  | createGCS (version : Nat) (opts : GCSOpts)
  | deleteResponseObject (version : Nat) (name : String)
  | createResponseObject (version : Nat) (opts : ResponseObjectOpts)
  | deleteRequestSetting (version : Nat) (name : String)
  | createRequestSetting (version : Nat) (opts : RequestSettingOpts)
  | deleteVCL (version : Nat) (name : String)
  | createVCL (version : Nat) (opts : VCLOpts)
  | activateVCL (version : Nat) (name : String)
  | deleteCacheSetting (version : Nat) (name : String)
  | createCacheSetting (version : Nat) (opts : CacheSettingOpts)
  | validateVersion (version : Nat)
  | activateVersion (version : Nat)
deriving DecidableEq, Repr

/-- The networked configuration backend, as an oracle over calls.
`callErr` gives the outcome of each fire-and-check call (create,
delete, update-settings, activate-VCL, activate-version, rename);
`clone` and `validate` return data and so have dedicated oracles. -/
structure Conn where
  callErr : Ev → Option String
  clone : Nat → Except String Nat
  validate : Nat → Except String (Bool × String)

/-- One side (old or new) of the declarative desired state. -/
structure ServiceDesired where
  name : String
  defaultHost : String
  defaultTTL : Int
  conditions : List Condition
  domains : List Domain
  healthchecks : List Healthcheck
  backends : List Backend
  headers : List HeaderRec
  gzips : List Gzip
  s3s : List S3
  papertrails : List Papertrail
  sumologics : List Sumologic
  gcss : List GCS
  responseObjects : List ResponseObject
  requestSettings : List RequestSetting
  vcls : List VCLRec
  cacheSettings : List CacheSetting
deriving DecidableEq, Repr

/-- The `schema.ResourceData` handed to the update: the service id, the
currently recorded `active_version`, and the old/new desired state
pair that `d.GetChange` exposes per attribute. -/
structure ResourceData where
  id : String
  activeVersion : Nat
  old : ServiceDesired
  new : ServiceDesired
deriving DecidableEq, Repr

/-! ### Resource diff engine (`schema.Set.Difference`) -/

/-- `old.Difference(new)`: elements of `old` not in `new`, under full
value equality. -/
def diffRemove {α : Type} [DecidableEq α] (old new : List α) : List α :=
  old.filter (fun x => decide (¬ x ∈ new))

/-- `new.Difference(old)`: elements of `new` not in `old`, under full
value equality. -/
def diffAdd {α : Type} [DecidableEq α] (old new : List α) : List α :=
  new.filter (fun x => decide (¬ x ∈ old))

/-- `d.HasChange` on a `schema.Set` attribute: the two sets are not
equal, i.e. some element is in one but not the other. -/
def setChanged {α : Type} [DecidableEq α] (old new : List α) : Bool :=
  !(diffRemove old new).isEmpty || !(diffAdd old new).isEmpty

/-! ### `validateVCLs` -/

/-- The VCL `main` invariant check run before anything else: among the
newly desired VCL records, zero `main` among a non-empty set, or more
than one `main`, is a configuration error. -/
def validateVCLs (vcls : List VCLRec) : Option String :=
  if (vcls.filter (fun v => v.main)).length = 0 ∧
      0 < (vcls.filter (fun v => !v.main)).length then
    some "if you include VCL configurations, one of them should have main = true"
  else if 1 < (vcls.filter (fun v => v.main)).length then
    some "you cannot have more than one VCL configuration with main = true"
  else
    none

/-! ### Error message formats (`fmt.Errorf` in the source) -/

def s3KeyErr (key id : String) : String :=
  "[ERR] No " ++ key ++ " found for S3 Log stream setup for Service (" ++ id ++ ")"

def valCheckErr (e : String) : String :=
  "[ERR] Error checking validation: " ++ e

def invalidErr (id msg : String) : String :=
  "[ERR] Invalid configuration for Fastly Service (" ++ id ++ "): " ++ msg

def activateErr (v : Nat) (e : String) : String :=
  "[ERR] Error activating version (" ++ toString v ++ "): " ++ e

/-! ### Sequencing of issued calls

Each phase of the update yields the list of calls it issued (in order,
including a final failing call) together with `none` on success or the
error that aborted it.  A failed phase stops the run; later phases
contribute nothing. -/

/-- Issue each call in turn, stopping at the first failure.  Returns
the calls actually issued and the first error, if any. -/
def runCalls (conn : Conn) : List Ev → List Ev × Option String
  | [] => ([], none)
  | e :: es =>
    match conn.callErr e with
    | some m => ([e], some m)
    | none =>
      let r := runCalls conn es
      (e :: r.1, r.2)

/-- Process the `toAdd` side of a diff: build each record (the builder
may reject it without issuing any call), then issue its calls,
stopping at the first error. -/
def runAdds {α : Type} (conn : Conn) (step : α → Except String (List Ev)) :
    List α → List Ev × Option String
  | [] => ([], none)
  | a :: as =>
    match step a with
    | .error m => ([], some m)
    | .ok evs =>
      match runCalls conn evs with
      | (tr, some m) => (tr, some m)
      | (tr, none) =>
        let r := runAdds conn step as
        (tr ++ r.1, r.2)

/-- An update phase guarded by a `d.HasChange` test. -/
def applyIf (b : Bool) (s : List Ev × Option String) : List Ev × Option String :=
  if b then s else ([], none)

/-- Run phases in order; a failing phase truncates the run. -/
def seqSteps : List (List Ev × Option String) → List Ev × Option String
  | [] => ([], none)
  | b :: bs =>
    match b.2 with
    | some m => (b.1, some m)
    | none => (b.1 ++ (seqSteps bs).1, (seqSteps bs).2)

/-! ### The phases of `resourceServiceV1Update`, in source order -/

/-- `UpdateSettings` when `default_host` or `default_ttl` changed. -/
def settingsStep (d : ResourceData) (conn : Conn) (v : Nat) :
    List Ev × Option String :=
  applyIf (decide (d.old.defaultHost ≠ d.new.defaultHost) ||
           decide (d.old.defaultTTL ≠ d.new.defaultTTL))
    (runCalls conn [.updateSettings v d.new.defaultHost (goUint d.new.defaultTTL)])

def condDelStep (d : ResourceData) (conn : Conn) (v : Nat) :
    List Ev × Option String :=
  applyIf (setChanged d.old.conditions d.new.conditions)
    (runCalls conn ((diffRemove d.old.conditions d.new.conditions).map
      (fun c => .deleteCondition v c.name)))

def condAddStep (d : ResourceData) (conn : Conn) (v : Nat) :
    List Ev × Option String :=
  applyIf (setChanged d.old.conditions d.new.conditions)
    (runAdds conn (fun c => .ok [.createCondition v (mkConditionOpts c)])
      (diffAdd d.old.conditions d.new.conditions))

def domainDelStep (d : ResourceData) (conn : Conn) (v : Nat) :
    List Ev × Option String :=
  applyIf (setChanged d.old.domains d.new.domains)
    (runCalls conn ((diffRemove d.old.domains d.new.domains).map
      (fun x => .deleteDomain v x.name)))

def domainAddStep (d : ResourceData) (conn : Conn) (v : Nat) :
    List Ev × Option String :=
  applyIf (setChanged d.old.domains d.new.domains)
    (runAdds conn (fun x => .ok [.createDomain v (mkDomainOpts x)])
      (diffAdd d.old.domains d.new.domains))

def healthcheckDelStep (d : ResourceData) (conn : Conn) (v : Nat) :
    List Ev × Option String :=
  applyIf (setChanged d.old.healthchecks d.new.healthchecks)
    (runCalls conn ((diffRemove d.old.healthchecks d.new.healthchecks).map
      (fun x => .deleteHealthcheck v x.name)))

def healthcheckAddStep (d : ResourceData) (conn : Conn) (v : Nat) :
    List Ev × Option String :=
  applyIf (setChanged d.old.healthchecks d.new.healthchecks)
    (runAdds conn (fun x => .ok [.createHealthcheck v (mkHealthcheckOpts x)])
      (diffAdd d.old.healthchecks d.new.healthchecks))

def backendDelStep (d : ResourceData) (conn : Conn) (v : Nat) :
    List Ev × Option String :=
  applyIf (setChanged d.old.backends d.new.backends)
    (runCalls conn ((diffRemove d.old.backends d.new.backends).map
      (fun x => .deleteBackend v x.name)))

def backendAddStep (d : ResourceData) (conn : Conn) (v : Nat) :
    List Ev × Option String :=
  applyIf (setChanged d.old.backends d.new.backends)
    (runAdds conn (fun x => .ok [.createBackend v (mkBackendOpts x)])
      (diffAdd d.old.backends d.new.backends))

def headerDelStep (d : ResourceData) (conn : Conn) (v : Nat) :
    List Ev × Option String :=
  applyIf (setChanged d.old.headers d.new.headers)
    (runCalls conn ((diffRemove d.old.headers d.new.headers).map
      (fun x => .deleteHeader v x.name)))

def headerAddStep (d : ResourceData) (conn : Conn) (v : Nat) :
    List Ev × Option String :=
  applyIf (setChanged d.old.headers d.new.headers)
    (runAdds conn
      (fun x => (buildHeader x).map (fun o => [Ev.createHeader v o]))
      (diffAdd d.old.headers d.new.headers))

def gzipDelStep (d : ResourceData) (conn : Conn) (v : Nat) :
    List Ev × Option String :=
  applyIf (setChanged d.old.gzips d.new.gzips)
    (runCalls conn ((diffRemove d.old.gzips d.new.gzips).map
      (fun x => .deleteGzip v x.name)))

def gzipAddStep (d : ResourceData) (conn : Conn) (v : Nat) :
    List Ev × Option String :=
  applyIf (setChanged d.old.gzips d.new.gzips)
    (runAdds conn (fun x => .ok [.createGzip v (mkGzipOpts x)])
      (diffAdd d.old.gzips d.new.gzips))

def s3DelStep (d : ResourceData) (conn : Conn) (v : Nat) :
    List Ev × Option String :=
  applyIf (setChanged d.old.s3s d.new.s3s)
    (runCalls conn ((diffRemove d.old.s3s d.new.s3s).map
      (fun x => .deleteS3 v x.name)))

/-- The add side of the S3 logging diff: the Fastly API will not error
when the keys are omitted, so an empty `s3_access_key` or
`s3_secret_key` is rejected locally before the create call. -/
def s3Build (v : Nat) (id : String) (s : S3) : Except String (List Ev) :=
  if s.accessKey = "" then .error (s3KeyErr "s3_access_key" id)
  else if s.secretKey = "" then .error (s3KeyErr "s3_secret_key" id)
  else .ok [.createS3 v (mkS3Opts s)]

def s3AddStep (d : ResourceData) (conn : Conn) (v : Nat) :
    List Ev × Option String :=
  applyIf (setChanged d.old.s3s d.new.s3s)
    (runAdds conn (s3Build v d.id) (diffAdd d.old.s3s d.new.s3s))

def papertrailDelStep (d : ResourceData) (conn : Conn) (v : Nat) :
    List Ev × Option String :=
  applyIf (setChanged d.old.papertrails d.new.papertrails)
    (runCalls conn ((diffRemove d.old.papertrails d.new.papertrails).map
      (fun x => .deletePapertrail v x.name)))

def papertrailAddStep (d : ResourceData) (conn : Conn) (v : Nat) :
    List Ev × Option String :=
  applyIf (setChanged d.old.papertrails d.new.papertrails)
    (runAdds conn (fun x => .ok [.createPapertrail v (mkPapertrailOpts x)])
      (diffAdd d.old.papertrails d.new.papertrails))

def sumologicDelStep (d : ResourceData) (conn : Conn) (v : Nat) :
    List Ev × Option String :=
  applyIf (setChanged d.old.sumologics d.new.sumologics)
    (runCalls conn ((diffRemove d.old.sumologics d.new.sumologics).map
      (fun x => .deleteSumologic v x.name)))

def sumologicAddStep (d : ResourceData) (conn : Conn) (v : Nat) :
    List Ev × Option String :=
  applyIf (setChanged d.old.sumologics d.new.sumologics)
    (runAdds conn (fun x => .ok [.createSumologic v (mkSumologicOpts x)])
      (diffAdd d.old.sumologics d.new.sumologics))

def gcsDelStep (d : ResourceData) (conn : Conn) (v : Nat) :
    List Ev × Option String :=
  applyIf (setChanged d.old.gcss d.new.gcss)
    (runCalls conn ((diffRemove d.old.gcss d.new.gcss).map
      (fun x => .deleteGCS v x.name)))

def gcsAddStep (d : ResourceData) (conn : Conn) (v : Nat) :
    List Ev × Option String :=
  applyIf (setChanged d.old.gcss d.new.gcss)
    (runAdds conn (fun x => .ok [.createGCS v (mkGCSOpts x)])
      (diffAdd d.old.gcss d.new.gcss))

def responseObjectDelStep (d : ResourceData) (conn : Conn) (v : Nat) :
    List Ev × Option String :=
  applyIf (setChanged d.old.responseObjects d.new.responseObjects)
    (runCalls conn ((diffRemove d.old.responseObjects d.new.responseObjects).map
      (fun x => .deleteResponseObject v x.name)))

def responseObjectAddStep (d : ResourceData) (conn : Conn) (v : Nat) :
    List Ev × Option String :=
  applyIf (setChanged d.old.responseObjects d.new.responseObjects)
    (runAdds conn (fun x => .ok [.createResponseObject v (mkResponseObjectOpts x)])
      (diffAdd d.old.responseObjects d.new.responseObjects))

def requestSettingDelStep (d : ResourceData) (conn : Conn) (v : Nat) :
    List Ev × Option String :=
  applyIf (setChanged d.old.requestSettings d.new.requestSettings)
    (runCalls conn ((diffRemove d.old.requestSettings d.new.requestSettings).map
      (fun x => .deleteRequestSetting v x.name)))

def requestSettingAddStep (d : ResourceData) (conn : Conn) (v : Nat) :
    List Ev × Option String :=
  applyIf (setChanged d.old.requestSettings d.new.requestSettings)
    (runAdds conn
      (fun x => (buildRequestSetting x).map (fun o => [Ev.createRequestSetting v o]))
      (diffAdd d.old.requestSettings d.new.requestSettings))

def vclDelStep (d : ResourceData) (conn : Conn) (v : Nat) :
    List Ev × Option String :=
  applyIf (setChanged d.old.vcls d.new.vcls)
    (runCalls conn ((diffRemove d.old.vcls d.new.vcls).map
      (fun x => .deleteVCL v x.name)))

/-- The add side of the VCL diff: create the VCL, and when the new
record is the `main` one, immediately issue the activate-VCL call. -/
def vclBuild (v : Nat) (x : VCLRec) : Except String (List Ev) :=
  .ok ((Ev.createVCL v (mkVCLOpts x)) ::
    (if x.main then [Ev.activateVCL v x.name] else []))

def vclAddStep (d : ResourceData) (conn : Conn) (v : Nat) :
    List Ev × Option String :=
  applyIf (setChanged d.old.vcls d.new.vcls)
    (runAdds conn (vclBuild v) (diffAdd d.old.vcls d.new.vcls))

def cacheSettingDelStep (d : ResourceData) (conn : Conn) (v : Nat) :
    List Ev × Option String :=
  applyIf (setChanged d.old.cacheSettings d.new.cacheSettings)
    (runCalls conn ((diffRemove d.old.cacheSettings d.new.cacheSettings).map
      (fun x => .deleteCacheSetting v x.name)))

def cacheSettingAddStep (d : ResourceData) (conn : Conn) (v : Nat) :
    List Ev × Option String :=
  applyIf (setChanged d.old.cacheSettings d.new.cacheSettings)
    (runAdds conn
      (fun x => (buildCacheSetting x).map (fun o => [Ev.createCacheSetting v o]))
      (diffAdd d.old.cacheSettings d.new.cacheSettings))

/-- The fixed order in which the collections are diffed and applied:
settings, then conditions, domains, healthchecks, backends, headers,
gzip rules, S3 logs, Papertrail, Sumologic, GCS logs, response
objects, request settings, VCL, cache settings — deletes before adds
within every collection. -/
def blocksList (d : ResourceData) (conn : Conn) (v : Nat) :
    List (List Ev × Option String) :=
  [settingsStep d conn v,
   condDelStep d conn v, condAddStep d conn v,
   domainDelStep d conn v, domainAddStep d conn v,
   healthcheckDelStep d conn v, healthcheckAddStep d conn v,
   backendDelStep d conn v, backendAddStep d conn v,
   headerDelStep d conn v, headerAddStep d conn v,
   gzipDelStep d conn v, gzipAddStep d conn v,
   s3DelStep d conn v, s3AddStep d conn v,
   papertrailDelStep d conn v, papertrailAddStep d conn v,
   sumologicDelStep d conn v, sumologicAddStep d conn v,
   gcsDelStep d conn v, gcsAddStep d conn v,
   responseObjectDelStep d conn v, responseObjectAddStep d conn v,
   requestSettingDelStep d conn v, requestSettingAddStep d conn v,
   vclDelStep d conn v, vclAddStep d conn v,
   cacheSettingDelStep d conn v, cacheSettingAddStep d conn v]

/-- The attributes whose change forces a new version.  This is the
literal list from the source; note that `sumologic` and `gcslogging`
are absent from it even though their diff blocks sit inside the
guarded region. -/
def needsChange (d : ResourceData) : Bool :=
  setChanged d.old.domains d.new.domains ||
  setChanged d.old.backends d.new.backends ||
  decide (d.old.defaultHost ≠ d.new.defaultHost) ||
  decide (d.old.defaultTTL ≠ d.new.defaultTTL) ||
  setChanged d.old.headers d.new.headers ||
  setChanged d.old.gzips d.new.gzips ||
  setChanged d.old.healthchecks d.new.healthchecks ||
  setChanged d.old.s3s d.new.s3s ||
  setChanged d.old.papertrails d.new.papertrails ||
  setChanged d.old.responseObjects d.new.responseObjects ||
  setChanged d.old.conditions d.new.conditions ||
  setChanged d.old.requestSettings d.new.requestSettings ||
  setChanged d.old.cacheSettings d.new.cacheSettings ||
  setChanged d.old.vcls d.new.vcls

/-- Service rename: a direct `UpdateService` call, needing no version. -/
def renameStep (d : ResourceData) (conn : Conn) : List Ev × Option String :=
  if d.old.name ≠ d.new.name then
    runCalls conn [.updateService d.new.name]
  else ([], none)

/-- The version manager: reuse the implicit unlocked version 1 when the
service has never been activated, otherwise clone the active version
and sleep 7 seconds for the clone to become available. -/
def versionStep (d : ResourceData) (conn : Conn) : List Ev × Except String Nat :=
  if d.activeVersion = 0 then ([], .ok 1)
  else
    match conn.clone d.activeVersion with
    | .error m => ([.cloneVersion d.activeVersion], .error m)
    | .ok n => ([.cloneVersion d.activeVersion, .sleep 7], .ok n)

/-- Validate the working version, then activate it; only on success is
the new number reported for `active_version`. -/
def finalStep (d : ResourceData) (conn : Conn) (v : Nat) :
    List Ev × Except String Nat :=
  match conn.validate v with
  | .error e => ([.validateVersion v], .error (valCheckErr e))
  | .ok (false, msg) => ([.validateVersion v], .error (invalidErr d.id msg))
  | .ok (true, _) =>
    match conn.callErr (.activateVersion v) with
    | some m => ([.validateVersion v, .activateVersion v], .error (activateErr v m))
    | none => ([.validateVersion v, .activateVersion v], .ok v)

/-- The reconciliation orchestrator.  Returns the calls issued, in
order, and either the error that aborted the run or the version
number committed to `active_version` (`none` when no versioned
attribute changed and nothing was activated). -/
def resourceServiceV1Update (d : ResourceData) (conn : Conn) :
    List Ev × Except String (Option Nat) :=
  match validateVCLs d.new.vcls with
  | some m => ([], .error m)
  | none =>
    match renameStep d conn with
    | (tr, some m) => (tr, .error m)
    | (tr0, none) =>
      if needsChange d then
        match versionStep d conn with
        | (tr1, .error m) => (tr0 ++ tr1, .error m)
        | (tr1, .ok v) =>
          match seqSteps (blocksList d conn v) with
          | (tr2, some m) => (tr0 ++ (tr1 ++ tr2), .error m)
          | (tr2, none) =>
            match finalStep d conn v with
            | (tr3, .error m) => (tr0 ++ (tr1 ++ (tr2 ++ tr3)), .error m)
            | (tr3, .ok w) => (tr0 ++ (tr1 ++ (tr2 ++ tr3)), .ok (some w))
      else (tr0, .ok none)

/-! ### Concrete data used by witnesses and counterexamples -/

/-- A backend oracle on which every call succeeds, cloning `v` yields
`v + 1`, and every version validates. -/
def connOK : Conn :=
  { callErr := fun _ => none
    clone := fun v => .ok (v + 1)
    validate := fun _ => .ok (true, "") }

/-- An empty desired state. -/
def emptyDesired : ServiceDesired :=
  { name := "svc", defaultHost := "", defaultTTL := 3600
    conditions := [], domains := [], healthchecks := [], backends := []
    headers := [], gzips := [], s3s := [], papertrails := []
    sumologics := [], gcss := [], responseObjects := []
    requestSettings := [], vcls := [], cacheSettings := [] }

def sampleSumologic : Sumologic :=
  { name := "sumo1", url := "https://collectors.example/receiver"
    format := "%h %l %u %t %r %>s", formatVersion := 1
    responseCondition := "", messageType := "classic" }

def sampleS3Old : S3 :=
  { name := "s3old", bucketName := "logs", accessKey := "AK", secretKey := "SK"
    path := "", period := 3600, domain := "", gzipLevel := 0
    format := "%h %l %u %t %r %>s", formatVersion := 1
    timestampFormat := "%Y-%m-%dT%H:%M:%S.000", responseCondition := "" }

def sampleS3NoKey : S3 :=
  { name := "s3new", bucketName := "logs", accessKey := "", secretKey := "SK"
    path := "", period := 3600, domain := "", gzipLevel := 0
    format := "%h %l %u %t %r %>s", formatVersion := 1
    timestampFormat := "%Y-%m-%dT%H:%M:%S.000", responseCondition := "" }

def sampleCondition : Condition :=
  { name := "condX", statement := "req.url ~ \x22^/api\x22", priority := 10
    type := "REQUEST" }

def sampleBackend : Backend :=
  { name := "b1", address := "1.2.3.4", autoLoadbalance := true
    betweenBytesTimeout := 10000, connectTimeout := 1000
    errorThreshold := 0, firstByteTimeout := 15000, maxConn := 200
    port := 80, shield := "", sslCheckCert := true, sslHostname := ""
    sslCertHostname := "", sslSNIHostname := "", weight := 100
    requestCondition := "condX", healthcheck := "" }

def sampleVCLMain : VCLRec :=
  { name := "vclA", content := "sub vcl_recv { }", main := true }

def sampleVCLInclude : VCLRec :=
  { name := "vclB", content := "sub helper { }", main := false }

/-- Only the Sumologic collection differs between old and new. -/
def dSumoOnly : ResourceData :=
  { id := "svc-id", activeVersion := 3
    old := emptyDesired
    new := { emptyDesired with sumologics := [sampleSumologic] } }

/-- The S3 collection replaces a record by one with an empty access key. -/
def dS3BadKey : ResourceData :=
  { id := "svc-id", activeVersion := 3
    old := { emptyDesired with s3s := [sampleS3Old] }
    new := { emptyDesired with s3s := [sampleS3NoKey] } }

/-- A reconciliation adding a condition and a backend referencing it. -/
def dCondBackend : ResourceData :=
  { id := "svc-id", activeVersion := 3
    old := emptyDesired
    new := { emptyDesired with
             conditions := [sampleCondition],
             backends := [sampleBackend] } }

/-- The VCL collection gains a non-main include next to the main VCL. -/
def dVclAdd : ResourceData :=
  { id := "svc-id", activeVersion := 3
    old := { emptyDesired with vcls := [sampleVCLMain] }
    new := { emptyDesired with vcls := [sampleVCLMain, sampleVCLInclude] } }

/-- A fresh main VCL is added to a service without VCLs. -/
def dVclFresh : ResourceData :=
  { id := "svc-id", activeVersion := 3
    old := emptyDesired
    new := { emptyDesired with vcls := [sampleVCLMain] } }

/-- Two include VCLs and no main: violates the VCL invariant. -/
def dVclNoMain : ResourceData :=
  { id := "svc-id", activeVersion := 3
    old := emptyDesired
    new := { emptyDesired with vcls := [sampleVCLInclude] } }

/-! ### Basic lemmas about the diff engine -/

theorem mem_diffRemove {α : Type} [DecidableEq α] {old new : List α} {x : α} :
    x ∈ diffRemove old new ↔ x ∈ old ∧ x ∉ new := by
  simp [diffRemove]

theorem mem_diffAdd {α : Type} [DecidableEq α] {old new : List α} {x : α} :
    x ∈ diffAdd old new ↔ x ∈ new ∧ x ∉ old := by
  simp [diffAdd]

theorem setChanged_true_of_mem_diffAdd {α : Type} [DecidableEq α]
    {old new : List α} {x : α} (h : x ∈ diffAdd old new) :
    setChanged old new = true := by
  have : diffAdd old new ≠ [] := fun hnil => by simp [hnil] at h
  simp [setChanged, List.isEmpty_iff]
  tauto

/-! ### Equation lemmas for call sequencing -/

theorem runCalls_cons_some {conn : Conn} {a : Ev} {as : List Ev} {m : String}
    (h : conn.callErr a = some m) :
    runCalls conn (a :: as) = ([a], some m) := by
  simp [runCalls, h]

theorem runCalls_cons_none {conn : Conn} {a : Ev} {as : List Ev}
    (h : conn.callErr a = none) :
    runCalls conn (a :: as) =
      (a :: (runCalls conn as).1, (runCalls conn as).2) := by
  simp [runCalls, h]

theorem runAdds_cons_err {α : Type} {conn : Conn}
    {step : α → Except String (List Ev)} {a : α} {as : List α} {m : String}
    (h : step a = .error m) :
    runAdds conn step (a :: as) = ([], some m) := by
  simp [runAdds, h]

theorem runAdds_cons_fail {α : Type} {conn : Conn}
    {step : α → Except String (List Ev)} {a : α} {as : List α}
    {evs tr : List Ev} {m : String} (h : step a = .ok evs)
    (h2 : runCalls conn evs = (tr, some m)) :
    runAdds conn step (a :: as) = (tr, some m) := by
  simp [runAdds, h, h2]

theorem runAdds_cons_ok {α : Type} {conn : Conn}
    {step : α → Except String (List Ev)} {a : α} {as : List α}
    {evs tr : List Ev} (h : step a = .ok evs)
    (h2 : runCalls conn evs = (tr, none)) :
    runAdds conn step (a :: as) =
      (tr ++ (runAdds conn step as).1, (runAdds conn step as).2) := by
  simp [runAdds, h, h2]

theorem seqSteps_cons_some {b : List Ev × Option String}
    {bs : List (List Ev × Option String)} {m : String} (h : b.2 = some m) :
    seqSteps (b :: bs) = (b.1, some m) := by
  simp [seqSteps, h]

theorem seqSteps_cons_none {b : List Ev × Option String}
    {bs : List (List Ev × Option String)} (h : b.2 = none) :
    seqSteps (b :: bs) = (b.1 ++ (seqSteps bs).1, (seqSteps bs).2) := by
  simp [seqSteps, h]

/-! ### Membership and success lemmas for call sequencing -/

theorem runCalls_mem {conn : Conn} {evs : List Ev} {e : Ev}
    (h : e ∈ (runCalls conn evs).1) : e ∈ evs := by
  induction evs with
  | nil => simp [runCalls] at h
  | cons a as ih =>
    rcases hce : conn.callErr a with - | m
    · rw [runCalls_cons_none hce] at h
      simp only [List.mem_cons] at h ⊢
      rcases h with rfl | h
      · left; rfl
      · right; exact ih h
    · rw [runCalls_cons_some hce] at h
      simp only [List.mem_singleton] at h
      simp [h]

theorem runCalls_none_eq {conn : Conn} {evs : List Ev}
    (h : (runCalls conn evs).2 = none) : (runCalls conn evs).1 = evs := by
  induction evs with
  | nil => simp [runCalls]
  | cons a as ih =>
    rcases hce : conn.callErr a with - | m
    · rw [runCalls_cons_none hce] at h ⊢
      simpa using ih h
    · rw [runCalls_cons_some hce] at h
      simp at h

theorem runCalls_ok_of_all {conn : Conn} (hc : ∀ e, conn.callErr e = none)
    (evs : List Ev) : runCalls conn evs = (evs, none) := by
  induction evs with
  | nil => simp [runCalls]
  | cons a as ih => simp [runCalls, hc a, ih]

theorem runAdds_mem {α : Type} {conn : Conn} {step : α → Except String (List Ev)}
    {l : List α} {e : Ev} (h : e ∈ (runAdds conn step l).1) :
    ∃ a ∈ l, ∃ evs, step a = .ok evs ∧ e ∈ evs := by
  induction l with
  | nil => simp [runAdds] at h
  | cons a as ih =>
    rcases hs : step a with m | evs
    · rw [runAdds_cons_err hs] at h
      simp at h
    · rcases hr : runCalls conn evs with ⟨tr, res⟩
      have htr : ∀ x ∈ tr, x ∈ evs := by
        intro x hx
        have hx' : x ∈ (runCalls conn evs).1 := by rw [hr]; exact hx
        exact runCalls_mem hx'
      cases res with
      | some m =>
        rw [runAdds_cons_fail hs hr] at h
        exact ⟨a, List.mem_cons_self _ _, evs, hs, htr e h⟩
      | none =>
        rw [runAdds_cons_ok hs hr] at h
        simp only [List.mem_append] at h
        rcases h with h | h
        · exact ⟨a, List.mem_cons_self _ _, evs, hs, htr e h⟩
        · obtain ⟨b, hb, evs', hs', he'⟩ := ih h
          exact ⟨b, List.mem_cons_of_mem _ hb, evs', hs', he'⟩

theorem runAdds_none_ok {α : Type} {conn : Conn}
    {step : α → Except String (List Ev)} {l : List α}
    (h : (runAdds conn step l).2 = none) :
    ∀ a ∈ l, ∃ evs, step a = .ok evs := by
  induction l with
  | nil => simp
  | cons a as ih =>
    intro b hb
    rcases hs : step a with m | evs
    · rw [runAdds_cons_err hs] at h
      simp at h
    · rcases hr : runCalls conn evs with ⟨tr, res⟩
      cases res with
      | some m => rw [runAdds_cons_fail hs hr] at h; simp at h
      | none =>
        rw [runAdds_cons_ok hs hr] at h
        simp only at h
        rcases List.mem_cons.mp hb with rfl | hb
        · exact ⟨evs, hs⟩
        · exact ih h b hb

theorem runAdds_none_mem {α : Type} {conn : Conn}
    {step : α → Except String (List Ev)} {l : List α} {a : α} {evs : List Ev}
    {x : Ev} (h : (runAdds conn step l).2 = none) (ha : a ∈ l)
    (hs : step a = .ok evs) (hx : x ∈ evs) :
    x ∈ (runAdds conn step l).1 := by
  induction l with
  | nil => cases ha
  | cons b bs ih =>
    rcases hsb : step b with m | evsb
    · rw [runAdds_cons_err hsb] at h
      simp at h
    · rcases hr : runCalls conn evsb with ⟨tr, res⟩
      cases res with
      | some m => rw [runAdds_cons_fail hsb hr] at h; simp at h
      | none =>
        rw [runAdds_cons_ok hsb hr] at h ⊢
        simp only [List.mem_append] at h ⊢
        rcases List.mem_cons.mp ha with rfl | ha
        · left
          rw [hs] at hsb
          cases hsb
          have heq : tr = evs := by
            have h0 : (runCalls conn evs).2 = none := by rw [hr]
            have h1 := runCalls_none_eq h0
            rw [hr] at h1
            exact h1
          rw [heq]
          exact hx
        · right; exact ih h ha

theorem runAdds_ok_of_all {α : Type} {conn : Conn}
    {step : α → Except String (List Ev)} (hc : ∀ e, conn.callErr e = none)
    {l : List α} (hs : ∀ a ∈ l, ∃ evs, step a = .ok evs) :
    (runAdds conn step l).2 = none := by
  induction l with
  | nil => simp [runAdds]
  | cons a as ih =>
    obtain ⟨evs, he⟩ := hs a (List.mem_cons_self _ _)
    rw [runAdds_cons_ok he (runCalls_ok_of_all hc evs)]
    exact ih (fun b hb => hs b (List.mem_cons_of_mem _ hb))

theorem applyIf_mem {b : Bool} {s : List Ev × Option String} {e : Ev}
    (h : e ∈ (applyIf b s).1) : b = true ∧ e ∈ s.1 := by
  cases b with
  | false => simp [applyIf] at h
  | true => exact ⟨rfl, by simpa [applyIf] using h⟩

theorem seqSteps_mem {bs : List (List Ev × Option String)} {e : Ev}
    (h : e ∈ (seqSteps bs).1) : ∃ b ∈ bs, e ∈ b.1 := by
  induction bs with
  | nil => simp [seqSteps] at h
  | cons b bs ih =>
    rcases hb : b.2 with - | m
    · rw [seqSteps_cons_none hb] at h
      simp only [List.mem_append] at h
      rcases h with h | h
      · exact ⟨b, List.mem_cons_self _ _, h⟩
      · obtain ⟨c, hc, he⟩ := ih h
        exact ⟨c, List.mem_cons_of_mem _ hc, he⟩
    · rw [seqSteps_cons_some hb] at h
      exact ⟨b, List.mem_cons_self _ _, h⟩

theorem seqSteps_none {bs : List (List Ev × Option String)}
    (h : (seqSteps bs).2 = none) : ∀ b ∈ bs, b.2 = none := by
  induction bs with
  | nil => simp
  | cons b bs ih =>
    intro c hc
    rcases hb : b.2 with - | m
    · rw [seqSteps_cons_none hb] at h
      simp only at h
      rcases List.mem_cons.mp hc with rfl | hc
      · exact hb
      · exact ih h c hc
    · rw [seqSteps_cons_some hb] at h
      simp at h

/-! ### Phase ranks

Every call the update can issue belongs to a fixed phase; the rank
records the position of that phase in the source's order.  Deletes of
a collection rank just below the creates of the same collection, and
the activate-VCL call belongs to the VCL add phase. -/

def evRank : Ev → Nat
  | .updateService _ => 0
  | .cloneVersion _ => 1
  | .sleep _ => 2
  | .updateSettings _ _ _ => 3
  | .deleteCondition _ _ => 4
  | .createCondition _ _ => 5
  | .deleteDomain _ _ => 6
  | .createDomain _ _ => 7
  | .deleteHealthcheck _ _ => 8
  | .createHealthcheck _ _ => 9
  | .deleteBackend _ _ => 10
  | .createBackend _ _ => 11
  | .deleteHeader _ _ => 12
  | .createHeader _ _ => 13
  | .deleteGzip _ _ => 14
  | .createGzip _ _ => 15
  | .deleteS3 _ _ => 16
  | .createS3 _ _ => 17
  | .deletePapertrail _ _ => 18
  | .createPapertrail _ _ => 19
  | .deleteSumologic _ _ => 20
  | .createSumologic _ _ => 21
  | .deleteGCS _ _ => 22
  | .createGCS _ _ => 23
  | .deleteResponseObject _ _ => 24
  | .createResponseObject _ _ => 25
  | .deleteRequestSetting _ _ => 26
  | .createRequestSetting _ _ => 27
  | .deleteVCL _ _ => 28
  | .createVCL _ _ => 29
  | .activateVCL _ _ => 29
  | .deleteCacheSetting _ _ => 30
  | .createCacheSetting _ _ => 31
  | .validateVersion _ => 32
  | .activateVersion _ => 33

/-- The collection a delete/create call belongs to (0 = condition,
..., 13 = cache setting); `none` for everything else. -/
def collKind : Ev → Option Nat
  | .deleteCondition _ _ => some 0
  | .createCondition _ _ => some 0
  | .deleteDomain _ _ => some 1
  | .createDomain _ _ => some 1
  | .deleteHealthcheck _ _ => some 2
  | .createHealthcheck _ _ => some 2
  | .deleteBackend _ _ => some 3
  | .createBackend _ _ => some 3
  | .deleteHeader _ _ => some 4
  | .createHeader _ _ => some 4
  | .deleteGzip _ _ => some 5
  | .createGzip _ _ => some 5
  | .deleteS3 _ _ => some 6
  | .createS3 _ _ => some 6
  | .deletePapertrail _ _ => some 7
  | .createPapertrail _ _ => some 7
  | .deleteSumologic _ _ => some 8
  | .createSumologic _ _ => some 8
  | .deleteGCS _ _ => some 9
  | .createGCS _ _ => some 9
  | .deleteResponseObject _ _ => some 10
  | .createResponseObject _ _ => some 10
  | .deleteRequestSetting _ _ => some 11
  | .createRequestSetting _ _ => some 11
  | .deleteVCL _ _ => some 12
  | .createVCL _ _ => some 12
  | .deleteCacheSetting _ _ => some 13
  | .createCacheSetting _ _ => some 13
  | .updateService _ => none
  | .cloneVersion _ => none
  | .sleep _ => none
  | .updateSettings _ _ _ => none
  | .activateVCL _ _ => none
  | .validateVersion _ => none
  | .activateVersion _ => none

/-- Whether a call is the create call of some collection. -/
def isCreateEv : Ev → Bool
  | .createCondition _ _ => true
  | .createDomain _ _ => true
  | .createHealthcheck _ _ => true
  | .createBackend _ _ => true
  | .createHeader _ _ => true
  | .createGzip _ _ => true
  | .createS3 _ _ => true
  | .createPapertrail _ _ => true
  | .createSumologic _ _ => true
  | .createGCS _ _ => true
  | .createResponseObject _ _ => true
  | .createRequestSetting _ _ => true
  | .createVCL _ _ => true
  | .createCacheSetting _ _ => true
  | .updateService _ => false
  | .cloneVersion _ => false
  | .sleep _ => false
  | .updateSettings _ _ _ => false
  | .deleteCondition _ _ => false
  | .deleteDomain _ _ => false
  | .deleteHealthcheck _ _ => false
  | .deleteBackend _ _ => false
  | .deleteHeader _ _ => false
  | .deleteGzip _ _ => false
  | .deleteS3 _ _ => false
  | .deletePapertrail _ _ => false
  | .deleteSumologic _ _ => false
  | .deleteGCS _ _ => false
  | .deleteResponseObject _ _ => false
  | .deleteRequestSetting _ _ => false
  | .deleteVCL _ _ => false
  | .activateVCL _ _ => false
  | .deleteCacheSetting _ _ => false
  | .validateVersion _ => false
  | .activateVersion _ => false

theorem evRank_of_kind_create {e : Ev} {k : Nat} (hk : collKind e = some k)
    (hc : isCreateEv e = true) : evRank e = 2 * k + 5 := by
  cases e <;> simp only [isCreateEv, reduceCtorEq] at hc <;>
    simp only [collKind, Option.some.injEq, reduceCtorEq] at hk <;>
    simp only [evRank] <;> omega

theorem evRank_of_kind_delete {e : Ev} {k : Nat} (hk : collKind e = some k)
    (hc : isCreateEv e = false) : evRank e = 2 * k + 4 := by
  cases e <;> simp only [isCreateEv, reduceCtorEq] at hc <;>
    simp only [collKind, Option.some.injEq, reduceCtorEq] at hk <;>
    simp only [evRank] <;> omega

/-! ### Rank of the calls issued by each phase -/

theorem runCalls_map_mem {α : Type} {conn : Conn} {l : List α} {f : α → Ev}
    {e : Ev} (h : e ∈ (runCalls conn (l.map f)).1) : ∃ a ∈ l, e = f a := by
  have := runCalls_mem h
  simp only [List.mem_map] at this
  obtain ⟨a, ha, rfl⟩ := this
  exact ⟨a, ha, rfl⟩

theorem settingsStep_rank (d : ResourceData) (conn : Conn) (v : Nat) :
    ∀ e ∈ (settingsStep d conn v).1, evRank e = 3 := by
  intro e he
  obtain ⟨-, he⟩ := applyIf_mem he
  have := runCalls_mem he
  simp only [List.mem_singleton] at this
  subst this
  rfl

theorem condDelStep_rank (d : ResourceData) (conn : Conn) (v : Nat) :
    ∀ e ∈ (condDelStep d conn v).1, evRank e = 4 := by
  intro e he
  obtain ⟨-, he⟩ := applyIf_mem he
  obtain ⟨a, -, rfl⟩ := runCalls_map_mem he
  rfl

theorem condAddStep_rank (d : ResourceData) (conn : Conn) (v : Nat) :
    ∀ e ∈ (condAddStep d conn v).1, evRank e = 5 := by
  intro e he
  obtain ⟨-, he⟩ := applyIf_mem he
  obtain ⟨a, -, evs, hok, hmem⟩ := runAdds_mem he
  simp only [Except.ok.injEq] at hok
  subst hok
  simp only [List.mem_singleton] at hmem
  subst hmem
  rfl

theorem domainDelStep_rank (d : ResourceData) (conn : Conn) (v : Nat) :
    ∀ e ∈ (domainDelStep d conn v).1, evRank e = 6 := by
  intro e he
  obtain ⟨-, he⟩ := applyIf_mem he
  obtain ⟨a, -, rfl⟩ := runCalls_map_mem he
  rfl

theorem domainAddStep_rank (d : ResourceData) (conn : Conn) (v : Nat) :
    ∀ e ∈ (domainAddStep d conn v).1, evRank e = 7 := by
  intro e he
  obtain ⟨-, he⟩ := applyIf_mem he
  obtain ⟨a, -, evs, hok, hmem⟩ := runAdds_mem he
  simp only [Except.ok.injEq] at hok
  subst hok
  simp only [List.mem_singleton] at hmem
  subst hmem
  rfl

theorem healthcheckDelStep_rank (d : ResourceData) (conn : Conn) (v : Nat) :
    ∀ e ∈ (healthcheckDelStep d conn v).1, evRank e = 8 := by
  intro e he
  obtain ⟨-, he⟩ := applyIf_mem he
  obtain ⟨a, -, rfl⟩ := runCalls_map_mem he
  rfl

theorem healthcheckAddStep_rank (d : ResourceData) (conn : Conn) (v : Nat) :
    ∀ e ∈ (healthcheckAddStep d conn v).1, evRank e = 9 := by
  intro e he
  obtain ⟨-, he⟩ := applyIf_mem he
  obtain ⟨a, -, evs, hok, hmem⟩ := runAdds_mem he
  simp only [Except.ok.injEq] at hok
  subst hok
  simp only [List.mem_singleton] at hmem
  subst hmem
  rfl

theorem backendDelStep_rank (d : ResourceData) (conn : Conn) (v : Nat) :
    ∀ e ∈ (backendDelStep d conn v).1, evRank e = 10 := by
  intro e he
  obtain ⟨-, he⟩ := applyIf_mem he
  obtain ⟨a, -, rfl⟩ := runCalls_map_mem he
  rfl

theorem backendAddStep_rank (d : ResourceData) (conn : Conn) (v : Nat) :
    ∀ e ∈ (backendAddStep d conn v).1, evRank e = 11 := by
  intro e he
  obtain ⟨-, he⟩ := applyIf_mem he
  obtain ⟨a, -, evs, hok, hmem⟩ := runAdds_mem he
  simp only [Except.ok.injEq] at hok
  subst hok
  simp only [List.mem_singleton] at hmem
  subst hmem
  rfl

theorem headerDelStep_rank (d : ResourceData) (conn : Conn) (v : Nat) :
    ∀ e ∈ (headerDelStep d conn v).1, evRank e = 12 := by
  intro e he
  obtain ⟨-, he⟩ := applyIf_mem he
  obtain ⟨a, -, rfl⟩ := runCalls_map_mem he
  rfl

theorem headerAddStep_rank (d : ResourceData) (conn : Conn) (v : Nat) :
    ∀ e ∈ (headerAddStep d conn v).1, evRank e = 13 := by
  intro e he
  obtain ⟨-, he⟩ := applyIf_mem he
  obtain ⟨a, -, evs, hok, hmem⟩ := runAdds_mem he
  rcases hb : buildHeader a with m | o
  · rw [hb] at hok; simp [Except.map] at hok
  · rw [hb] at hok
    simp only [Except.map, Except.ok.injEq] at hok
    subst hok
    simp only [List.mem_singleton] at hmem
    subst hmem
    rfl

theorem gzipDelStep_rank (d : ResourceData) (conn : Conn) (v : Nat) :
    ∀ e ∈ (gzipDelStep d conn v).1, evRank e = 14 := by
  intro e he
  obtain ⟨-, he⟩ := applyIf_mem he
  obtain ⟨a, -, rfl⟩ := runCalls_map_mem he
  rfl

theorem gzipAddStep_rank (d : ResourceData) (conn : Conn) (v : Nat) :
    ∀ e ∈ (gzipAddStep d conn v).1, evRank e = 15 := by
  intro e he
  obtain ⟨-, he⟩ := applyIf_mem he
  obtain ⟨a, -, evs, hok, hmem⟩ := runAdds_mem he
  simp only [Except.ok.injEq] at hok
  subst hok
  simp only [List.mem_singleton] at hmem
  subst hmem
  rfl

theorem s3DelStep_rank (d : ResourceData) (conn : Conn) (v : Nat) :
    ∀ e ∈ (s3DelStep d conn v).1, evRank e = 16 := by
  intro e he
  obtain ⟨-, he⟩ := applyIf_mem he
  obtain ⟨a, -, rfl⟩ := runCalls_map_mem he
  rfl

theorem s3Build_ok {v : Nat} {id : String} {s : S3} {evs : List Ev}
    (h : s3Build v id s = .ok evs) :
    s.accessKey ≠ "" ∧ s.secretKey ≠ "" ∧ evs = [.createS3 v (mkS3Opts s)] := by
  unfold s3Build at h
  split at h
  · simp at h
  · split at h
    · simp at h
    · simp only [Except.ok.injEq] at h
      exact ⟨by assumption, by assumption, h.symm⟩

theorem s3AddStep_rank (d : ResourceData) (conn : Conn) (v : Nat) :
    ∀ e ∈ (s3AddStep d conn v).1, evRank e = 17 := by
  intro e he
  obtain ⟨-, he⟩ := applyIf_mem he
  obtain ⟨a, -, evs, hok, hmem⟩ := runAdds_mem he
  obtain ⟨-, -, rfl⟩ := s3Build_ok hok
  simp only [List.mem_singleton] at hmem
  subst hmem
  rfl

theorem papertrailDelStep_rank (d : ResourceData) (conn : Conn) (v : Nat) :
    ∀ e ∈ (papertrailDelStep d conn v).1, evRank e = 18 := by
  intro e he
  obtain ⟨-, he⟩ := applyIf_mem he
  obtain ⟨a, -, rfl⟩ := runCalls_map_mem he
  rfl

theorem papertrailAddStep_rank (d : ResourceData) (conn : Conn) (v : Nat) :
    ∀ e ∈ (papertrailAddStep d conn v).1, evRank e = 19 := by
  intro e he
  obtain ⟨-, he⟩ := applyIf_mem he
  obtain ⟨a, -, evs, hok, hmem⟩ := runAdds_mem he
  simp only [Except.ok.injEq] at hok
  subst hok
  simp only [List.mem_singleton] at hmem
  subst hmem
  rfl

theorem sumologicDelStep_rank (d : ResourceData) (conn : Conn) (v : Nat) :
    ∀ e ∈ (sumologicDelStep d conn v).1, evRank e = 20 := by
  intro e he
  obtain ⟨-, he⟩ := applyIf_mem he
  obtain ⟨a, -, rfl⟩ := runCalls_map_mem he
  rfl

theorem sumologicAddStep_rank (d : ResourceData) (conn : Conn) (v : Nat) :
    ∀ e ∈ (sumologicAddStep d conn v).1, evRank e = 21 := by
  intro e he
  obtain ⟨-, he⟩ := applyIf_mem he
  obtain ⟨a, -, evs, hok, hmem⟩ := runAdds_mem he
  simp only [Except.ok.injEq] at hok
  subst hok
  simp only [List.mem_singleton] at hmem
  subst hmem
  rfl

theorem gcsDelStep_rank (d : ResourceData) (conn : Conn) (v : Nat) :
    ∀ e ∈ (gcsDelStep d conn v).1, evRank e = 22 := by
  intro e he
  obtain ⟨-, he⟩ := applyIf_mem he
  obtain ⟨a, -, rfl⟩ := runCalls_map_mem he
  rfl

theorem gcsAddStep_rank (d : ResourceData) (conn : Conn) (v : Nat) :
    ∀ e ∈ (gcsAddStep d conn v).1, evRank e = 23 := by
  intro e he
  obtain ⟨-, he⟩ := applyIf_mem he
  obtain ⟨a, -, evs, hok, hmem⟩ := runAdds_mem he
  simp only [Except.ok.injEq] at hok
  subst hok
  simp only [List.mem_singleton] at hmem
  subst hmem
  rfl

theorem responseObjectDelStep_rank (d : ResourceData) (conn : Conn) (v : Nat) :
    ∀ e ∈ (responseObjectDelStep d conn v).1, evRank e = 24 := by
  intro e he
  obtain ⟨-, he⟩ := applyIf_mem he
  obtain ⟨a, -, rfl⟩ := runCalls_map_mem he
  rfl

theorem responseObjectAddStep_rank (d : ResourceData) (conn : Conn) (v : Nat) :
    ∀ e ∈ (responseObjectAddStep d conn v).1, evRank e = 25 := by
  intro e he
  obtain ⟨-, he⟩ := applyIf_mem he
  obtain ⟨a, -, evs, hok, hmem⟩ := runAdds_mem he
  simp only [Except.ok.injEq] at hok
  subst hok
  simp only [List.mem_singleton] at hmem
  subst hmem
  rfl

theorem requestSettingDelStep_rank (d : ResourceData) (conn : Conn) (v : Nat) :
    ∀ e ∈ (requestSettingDelStep d conn v).1, evRank e = 26 := by
  intro e he
  obtain ⟨-, he⟩ := applyIf_mem he
  obtain ⟨a, -, rfl⟩ := runCalls_map_mem he
  rfl

theorem requestSettingAddStep_rank (d : ResourceData) (conn : Conn) (v : Nat) :
    ∀ e ∈ (requestSettingAddStep d conn v).1, evRank e = 27 := by
  intro e he
  obtain ⟨-, he⟩ := applyIf_mem he
  obtain ⟨a, -, evs, hok, hmem⟩ := runAdds_mem he
  rcases hb : buildRequestSetting a with m | o
  · rw [hb] at hok; simp [Except.map] at hok
  · rw [hb] at hok
    simp only [Except.map, Except.ok.injEq] at hok
    subst hok
    simp only [List.mem_singleton] at hmem
    subst hmem
    rfl

theorem vclDelStep_rank (d : ResourceData) (conn : Conn) (v : Nat) :
    ∀ e ∈ (vclDelStep d conn v).1, evRank e = 28 := by
  intro e he
  obtain ⟨-, he⟩ := applyIf_mem he
  obtain ⟨a, -, rfl⟩ := runCalls_map_mem he
  rfl

theorem vclBuild_ok {v : Nat} {x : VCLRec} {evs : List Ev}
    (h : vclBuild v x = .ok evs) :
    evs = (Ev.createVCL v (mkVCLOpts x)) ::
      (if x.main then [Ev.activateVCL v x.name] else []) := by
  simpa [vclBuild] using h.symm

theorem vclAddStep_rank (d : ResourceData) (conn : Conn) (v : Nat) :
    ∀ e ∈ (vclAddStep d conn v).1, evRank e = 29 := by
  intro e he
  obtain ⟨-, he⟩ := applyIf_mem he
  obtain ⟨a, -, evs, hok, hmem⟩ := runAdds_mem he
  rw [vclBuild_ok hok] at hmem
  simp only [List.mem_cons] at hmem
  rcases hmem with rfl | hmem
  · rfl
  · rcases ha : a.main with - | -
    · rw [ha] at hmem; simp at hmem
    · rw [ha] at hmem
      simp only [if_true, List.mem_singleton] at hmem
      subst hmem
      rfl

theorem cacheSettingDelStep_rank (d : ResourceData) (conn : Conn) (v : Nat) :
    ∀ e ∈ (cacheSettingDelStep d conn v).1, evRank e = 30 := by
  intro e he
  obtain ⟨-, he⟩ := applyIf_mem he
  obtain ⟨a, -, rfl⟩ := runCalls_map_mem he
  rfl

theorem cacheSettingAddStep_rank (d : ResourceData) (conn : Conn) (v : Nat) :
    ∀ e ∈ (cacheSettingAddStep d conn v).1, evRank e = 31 := by
  intro e he
  obtain ⟨-, he⟩ := applyIf_mem he
  obtain ⟨a, -, evs, hok, hmem⟩ := runAdds_mem he
  rcases hb : buildCacheSetting a with m | o
  · rw [hb] at hok; simp [Except.map] at hok
  · rw [hb] at hok
    simp only [Except.map, Except.ok.injEq] at hok
    subst hok
    simp only [List.mem_singleton] at hmem
    subst hmem
    rfl

/-! ### Ordering of the issued calls -/

theorem pairwise_rank_const {l : List Ev} {r : Nat}
    (h : ∀ e ∈ l, evRank e = r) :
    l.Pairwise (fun a b => evRank a ≤ evRank b) := by
  induction l with
  | nil => exact List.Pairwise.nil
  | cons a t ih =>
    refine List.Pairwise.cons (fun b hb => ?_)
      (ih fun e he => h e (List.mem_cons_of_mem _ he))
    rw [h a (List.mem_cons_self _ _), h b (List.mem_cons_of_mem _ hb)]

theorem forall2_mem_right {α β : Type} {R : α → β → Prop} {xs : List α}
    {ys : List β} (h : List.Forall₂ R xs ys) {b : β} (hb : b ∈ ys) :
    ∃ a ∈ xs, R a b := by
  induction h with
  | nil => cases hb
  | cons hr _ ih =>
    rcases List.mem_cons.mp hb with rfl | hb
    · exact ⟨_, List.mem_cons_self _ _, hr⟩
    · obtain ⟨a, ha, hab⟩ := ih hb
      exact ⟨a, List.mem_cons_of_mem _ ha, hab⟩

theorem seqSteps_ranked {rs : List Nat} {bs : List (List Ev × Option String)}
    (hf : List.Forall₂ (fun r b => ∀ e ∈ b.1, evRank e = r) rs bs)
    (hp : rs.Pairwise (· ≤ ·)) :
    (seqSteps bs).1.Pairwise (fun a b => evRank a ≤ evRank b) ∧
      ∀ e ∈ (seqSteps bs).1, ∃ r ∈ rs, evRank e = r := by
  induction hf with
  | nil => simp [seqSteps]
  | @cons r b rs' bs' hr ht ih =>
    obtain ⟨ihs, ihm⟩ := ih (List.Pairwise.of_cons hp)
    rcases hb : b.2 with - | m
    · rw [seqSteps_cons_none hb]
      dsimp only
      constructor
      · refine List.pairwise_append.mpr ⟨pairwise_rank_const hr, ihs, ?_⟩
        intro x hx y hy
        obtain ⟨r', hr', hy'⟩ := ihm y hy
        rw [hr x hx, hy']
        exact List.rel_of_pairwise_cons hp hr'
      · intro e he
        rcases List.mem_append.mp he with he | he
        · exact ⟨r, List.mem_cons_self _ _, hr e he⟩
        · obtain ⟨r', hr', he'⟩ := ihm e he
          exact ⟨r', List.mem_cons_of_mem _ hr', he'⟩
    · rw [seqSteps_cons_some hb]
      dsimp only
      exact ⟨pairwise_rank_const hr,
        fun e he => ⟨r, List.mem_cons_self _ _, hr e he⟩⟩

/-- The ranks of the 29 collection phases, in order. -/
def ranksList : List Nat :=
  [3, 4, 5, 6, 7, 8, 9, 10, 11, 12, 13, 14, 15, 16, 17, 18, 19, 20, 21,
   22, 23, 24, 25, 26, 27, 28, 29, 30, 31]

theorem blocksList_ranked (d : ResourceData) (conn : Conn) (v : Nat) :
    List.Forall₂ (fun r b => ∀ e ∈ b.1, evRank e = r)
      ranksList (blocksList d conn v) :=
  .cons (settingsStep_rank d conn v) <| .cons (condDelStep_rank d conn v) <|
  .cons (condAddStep_rank d conn v) <| .cons (domainDelStep_rank d conn v) <|
  .cons (domainAddStep_rank d conn v) <|
  .cons (healthcheckDelStep_rank d conn v) <|
  .cons (healthcheckAddStep_rank d conn v) <|
  .cons (backendDelStep_rank d conn v) <|
  .cons (backendAddStep_rank d conn v) <|
  .cons (headerDelStep_rank d conn v) <|
  .cons (headerAddStep_rank d conn v) <| .cons (gzipDelStep_rank d conn v) <|
  .cons (gzipAddStep_rank d conn v) <| .cons (s3DelStep_rank d conn v) <|
  .cons (s3AddStep_rank d conn v) <|
  .cons (papertrailDelStep_rank d conn v) <|
  .cons (papertrailAddStep_rank d conn v) <|
  .cons (sumologicDelStep_rank d conn v) <|
  .cons (sumologicAddStep_rank d conn v) <|
  .cons (gcsDelStep_rank d conn v) <| .cons (gcsAddStep_rank d conn v) <|
  .cons (responseObjectDelStep_rank d conn v) <|
  .cons (responseObjectAddStep_rank d conn v) <|
  .cons (requestSettingDelStep_rank d conn v) <|
  .cons (requestSettingAddStep_rank d conn v) <|
  .cons (vclDelStep_rank d conn v) <| .cons (vclAddStep_rank d conn v) <|
  .cons (cacheSettingDelStep_rank d conn v) <|
  .cons (cacheSettingAddStep_rank d conn v) <| .nil

theorem ranksList_sorted : ranksList.Pairwise (· ≤ ·) := by decide

theorem ranksList_bound : ∀ r ∈ ranksList, 3 ≤ r ∧ r ≤ 31 := by decide

theorem seq_sorted (d : ResourceData) (conn : Conn) (v : Nat) :
    (seqSteps (blocksList d conn v)).1.Pairwise
      (fun a b => evRank a ≤ evRank b) :=
  (seqSteps_ranked (blocksList_ranked d conn v) ranksList_sorted).1

theorem seq_rank_bound (d : ResourceData) (conn : Conn) (v : Nat) :
    ∀ e ∈ (seqSteps (blocksList d conn v)).1,
      3 ≤ evRank e ∧ evRank e ≤ 31 := by
  intro e he
  obtain ⟨r, hr, he'⟩ :=
    (seqSteps_ranked (blocksList_ranked d conn v) ranksList_sorted).2 e he
  rw [he']
  exact ranksList_bound r hr

/-! ### Shapes of the rename, version and final phases -/

theorem renameStep_rank (d : ResourceData) (conn : Conn) :
    ∀ e ∈ (renameStep d conn).1, evRank e = 0 := by
  intro e he
  unfold renameStep at he
  split at he
  · have := runCalls_mem he
    simp only [List.mem_singleton] at this
    subst this
    rfl
  · simp at he

theorem versionStep_shape (d : ResourceData) (conn : Conn) :
    (versionStep d conn).1 = [] ∨
    (versionStep d conn).1 = [.cloneVersion d.activeVersion] ∨
    (versionStep d conn).1 = [.cloneVersion d.activeVersion, .sleep 7] := by
  unfold versionStep
  split
  · simp
  · rcases h : conn.clone d.activeVersion with m | n <;> simp [h]

theorem versionStep_rank (d : ResourceData) (conn : Conn) :
    ∀ e ∈ (versionStep d conn).1, 1 ≤ evRank e ∧ evRank e ≤ 2 := by
  intro e he
  rcases versionStep_shape d conn with h | h | h <;> rw [h] at he
  · simp at he
  · simp only [List.mem_singleton] at he
    subst he
    simp [evRank]
  · simp only [List.mem_cons, List.not_mem_nil, or_false] at he
    rcases he with rfl | rfl <;> simp [evRank]

theorem versionStep_sorted (d : ResourceData) (conn : Conn) :
    (versionStep d conn).1.Pairwise (fun a b => evRank a ≤ evRank b) := by
  rcases versionStep_shape d conn with h | h | h <;> rw [h] <;>
    simp [List.pairwise_cons, evRank]

theorem finalStep_shape (d : ResourceData) (conn : Conn) (v : Nat) :
    (finalStep d conn v).1 = [.validateVersion v] ∨
    (finalStep d conn v).1 = [.validateVersion v, .activateVersion v] := by
  unfold finalStep
  rcases h : conn.validate v with e | p
  · simp [h]
  · rcases p with ⟨b, msg⟩
    cases b
    · simp [h]
    · rcases h2 : conn.callErr (.activateVersion v) with - | m <;> simp [h, h2]

theorem finalStep_rank (d : ResourceData) (conn : Conn) (v : Nat) :
    ∀ e ∈ (finalStep d conn v).1, 32 ≤ evRank e ∧ evRank e ≤ 33 := by
  intro e he
  rcases finalStep_shape d conn v with h | h <;> rw [h] at he
  · simp only [List.mem_singleton] at he
    subst he
    simp [evRank]
  · simp only [List.mem_cons, List.not_mem_nil, or_false] at he
    rcases he with rfl | rfl <;> simp [evRank]

theorem finalStep_sorted (d : ResourceData) (conn : Conn) (v : Nat) :
    (finalStep d conn v).1.Pairwise (fun a b => evRank a ≤ evRank b) := by
  rcases finalStep_shape d conn v with h | h <;> rw [h] <;>
    simp [List.pairwise_cons, evRank]

/-! ### Equation lemmas for the orchestrator -/

theorem update_eq_vcl_err {d : ResourceData} {conn : Conn} {m : String}
    (h : validateVCLs d.new.vcls = some m) :
    resourceServiceV1Update d conn = ([], .error m) := by
  simp [resourceServiceV1Update, h]

theorem update_eq_rename_err {d : ResourceData} {conn : Conn}
    {tr : List Ev} {m : String} (hv : validateVCLs d.new.vcls = none)
    (hr : renameStep d conn = (tr, some m)) :
    resourceServiceV1Update d conn = (tr, .error m) := by
  simp [resourceServiceV1Update, hv, hr]

theorem update_eq_nochange {d : ResourceData} {conn : Conn} {tr0 : List Ev}
    (hv : validateVCLs d.new.vcls = none)
    (hr : renameStep d conn = (tr0, none)) (hn : needsChange d = false) :
    resourceServiceV1Update d conn = (tr0, .ok none) := by
  simp [resourceServiceV1Update, hv, hr, hn]

theorem update_eq_clone_err {d : ResourceData} {conn : Conn}
    {tr0 tr1 : List Ev} {m : String} (hv : validateVCLs d.new.vcls = none)
    (hr : renameStep d conn = (tr0, none)) (hn : needsChange d = true)
    (hvs : versionStep d conn = (tr1, .error m)) :
    resourceServiceV1Update d conn = (tr0 ++ tr1, .error m) := by
  simp [resourceServiceV1Update, hv, hr, hn, hvs]

theorem update_eq_seq_err {d : ResourceData} {conn : Conn}
    {tr0 tr1 tr2 : List Ev} {v : Nat} {m : String}
    (hv : validateVCLs d.new.vcls = none)
    (hr : renameStep d conn = (tr0, none)) (hn : needsChange d = true)
    (hvs : versionStep d conn = (tr1, .ok v))
    (hs : seqSteps (blocksList d conn v) = (tr2, some m)) :
    resourceServiceV1Update d conn = (tr0 ++ (tr1 ++ tr2), .error m) := by
  simp [resourceServiceV1Update, hv, hr, hn, hvs, hs]

theorem update_eq_final_err {d : ResourceData} {conn : Conn}
    {tr0 tr1 tr2 tr3 : List Ev} {v : Nat} {m : String}
    (hv : validateVCLs d.new.vcls = none)
    (hr : renameStep d conn = (tr0, none)) (hn : needsChange d = true)
    (hvs : versionStep d conn = (tr1, .ok v))
    (hs : seqSteps (blocksList d conn v) = (tr2, none))
    (hf : finalStep d conn v = (tr3, .error m)) :
    resourceServiceV1Update d conn =
      (tr0 ++ (tr1 ++ (tr2 ++ tr3)), .error m) := by
  simp [resourceServiceV1Update, hv, hr, hn, hvs, hs, hf]

theorem update_eq_final_ok {d : ResourceData} {conn : Conn}
    {tr0 tr1 tr2 tr3 : List Ev} {v w : Nat}
    (hv : validateVCLs d.new.vcls = none)
    (hr : renameStep d conn = (tr0, none)) (hn : needsChange d = true)
    (hvs : versionStep d conn = (tr1, .ok v))
    (hs : seqSteps (blocksList d conn v) = (tr2, none))
    (hf : finalStep d conn v = (tr3, .ok w)) :
    resourceServiceV1Update d conn =
      (tr0 ++ (tr1 ++ (tr2 ++ tr3)), .ok (some w)) := by
  simp [resourceServiceV1Update, hv, hr, hn, hvs, hs, hf]

theorem pairwise_rank_append {l₁ l₂ : List Ev} {c : Nat}
    (h₁ : l₁.Pairwise (fun a b => evRank a ≤ evRank b))
    (h₂ : l₂.Pairwise (fun a b => evRank a ≤ evRank b))
    (b₁ : ∀ e ∈ l₁, evRank e ≤ c) (b₂ : ∀ e ∈ l₂, c ≤ evRank e) :
    (l₁ ++ l₂).Pairwise (fun a b => evRank a ≤ evRank b) :=
  List.pairwise_append.mpr
    ⟨h₁, h₂, fun x hx y hy => (b₁ x hx).trans (b₂ y hy)⟩

/-- Every trace the update can produce is ordered by phase rank: the
rename first, then clone and wait, then the collection phases in the
fixed source order, then validation and activation. -/
theorem update_trace_sorted (d : ResourceData) (conn : Conn) :
    (resourceServiceV1Update d conn).1.Pairwise
      (fun a b => evRank a ≤ evRank b) := by
  rcases hv : validateVCLs d.new.vcls with - | m
  · rcases hr : renameStep d conn with ⟨tr0, r0⟩
    have htr0 : ∀ e ∈ tr0, evRank e = 0 := by
      have h := renameStep_rank d conn
      rw [hr] at h
      exact h
    cases r0 with
    | some m =>
      rw [update_eq_rename_err hv hr]
      exact pairwise_rank_const htr0
    | none =>
      rcases hn : needsChange d with - | -
      · rw [update_eq_nochange hv hr hn]
        exact pairwise_rank_const htr0
      · rcases hvs : versionStep d conn with ⟨tr1, r1⟩
        have htr1 : ∀ e ∈ tr1, 1 ≤ evRank e ∧ evRank e ≤ 2 := by
          have h := versionStep_rank d conn
          rw [hvs] at h
          exact h
        have htr1s : tr1.Pairwise (fun a b => evRank a ≤ evRank b) := by
          have h := versionStep_sorted d conn
          rw [hvs] at h
          exact h
        cases r1 with
        | error m =>
          rw [update_eq_clone_err hv hr hn hvs]
          exact pairwise_rank_append (c := 1) (pairwise_rank_const htr0)
            htr1s (fun e he => by rw [htr0 e he]; omega)
            (fun e he => (htr1 e he).1)
        | ok v =>
          rcases hs : seqSteps (blocksList d conn v) with ⟨tr2, r2⟩
          have htr2 : ∀ e ∈ tr2, 3 ≤ evRank e ∧ evRank e ≤ 31 := by
            have h := seq_rank_bound d conn v
            rw [hs] at h
            exact h
          have htr2s : tr2.Pairwise (fun a b => evRank a ≤ evRank b) := by
            have h := seq_sorted d conn v
            rw [hs] at h
            exact h
          cases r2 with
          | some m =>
            rw [update_eq_seq_err hv hr hn hvs hs]
            refine pairwise_rank_append (c := 1) (pairwise_rank_const htr0)
              ?_ (fun e he => by rw [htr0 e he]; omega) ?_
            · exact pairwise_rank_append (c := 3) htr1s htr2s
                (fun e he => (htr1 e he).2.trans (by omega))
                (fun e he => (htr2 e he).1)
            · intro e he
              rcases List.mem_append.mp he with he | he
              · exact (htr1 e he).1
              · exact le_trans (by omega) (htr2 e he).1
          | none =>
            rcases hf : finalStep d conn v with ⟨tr3, r3⟩
            have htr3 : ∀ e ∈ tr3, 32 ≤ evRank e ∧ evRank e ≤ 33 := by
              have h := finalStep_rank d conn v
              rw [hf] at h
              exact h
            have htr3s : tr3.Pairwise (fun a b => evRank a ≤ evRank b) := by
              have h := finalStep_sorted d conn v
              rw [hf] at h
              exact h
            have hmid : (tr2 ++ tr3).Pairwise
                (fun a b => evRank a ≤ evRank b) :=
              pairwise_rank_append (c := 32) htr2s htr3s
                (fun e he => (htr2 e he).2.trans (by omega))
                (fun e he => (htr3 e he).1)
            have hmidb : ∀ e ∈ tr2 ++ tr3, 3 ≤ evRank e := by
              intro e he
              rcases List.mem_append.mp he with he | he
              · exact (htr2 e he).1
              · exact le_trans (by omega) (htr3 e he).1
            have hbig : (tr1 ++ (tr2 ++ tr3)).Pairwise
                (fun a b => evRank a ≤ evRank b) :=
              pairwise_rank_append (c := 3) htr1s hmid
                (fun e he => (htr1 e he).2.trans (by omega)) hmidb
            have hbigb : ∀ e ∈ tr1 ++ (tr2 ++ tr3), 1 ≤ evRank e := by
              intro e he
              rcases List.mem_append.mp he with he | he
              · exact (htr1 e he).1
              · exact le_trans (by omega) (hmidb e he)
            cases r3 with
            | error m =>
              rw [update_eq_final_err hv hr hn hvs hs hf]
              exact pairwise_rank_append (c := 1) (pairwise_rank_const htr0)
                hbig (fun e he => by rw [htr0 e he]; omega) hbigb
            | ok w =>
              rw [update_eq_final_ok hv hr hn hvs hs hf]
              exact pairwise_rank_append (c := 1) (pairwise_rank_const htr0)
                hbig (fun e he => by rw [htr0 e he]; omega) hbigb
  · rw [update_eq_vcl_err hv]
    exact List.Pairwise.nil

/-! ### Locating a call inside the collection phases by its rank -/

/-- The phase that issues calls of a given rank. -/
def blockForRank (d : ResourceData) (conn : Conn) (v : Nat) :
    Nat → List Ev × Option String
  | 3 => settingsStep d conn v
  | 4 => condDelStep d conn v
  | 5 => condAddStep d conn v
  | 6 => domainDelStep d conn v
  | 7 => domainAddStep d conn v
  | 8 => healthcheckDelStep d conn v
  | 9 => healthcheckAddStep d conn v
  | 10 => backendDelStep d conn v
  | 11 => backendAddStep d conn v
  | 12 => headerDelStep d conn v
  | 13 => headerAddStep d conn v
  | 14 => gzipDelStep d conn v
  | 15 => gzipAddStep d conn v
  | 16 => s3DelStep d conn v
  | 17 => s3AddStep d conn v
  | 18 => papertrailDelStep d conn v
  | 19 => papertrailAddStep d conn v
  | 20 => sumologicDelStep d conn v
  | 21 => sumologicAddStep d conn v
  | 22 => gcsDelStep d conn v
  | 23 => gcsAddStep d conn v
  | 24 => responseObjectDelStep d conn v
  | 25 => responseObjectAddStep d conn v
  | 26 => requestSettingDelStep d conn v
  | 27 => requestSettingAddStep d conn v
  | 28 => vclDelStep d conn v
  | 29 => vclAddStep d conn v
  | 30 => cacheSettingDelStep d conn v
  | 31 => cacheSettingAddStep d conn v
  | _ => ([], none)

/-- A call issued by the collection phases came from the phase of its
own rank. -/
theorem seq_mem_state (d : ResourceData) (conn : Conn) (v : Nat) {e : Ev}
    (he : e ∈ (seqSteps (blocksList d conn v)).1) :
    e ∈ (blockForRank d conn v (evRank e)).1 := by
  obtain ⟨b, hb, hbe⟩ := seqSteps_mem he
  simp only [blocksList, List.mem_cons, List.not_mem_nil, or_false] at hb
  rcases hb with rfl | rfl | rfl | rfl | rfl | rfl | rfl | rfl | rfl | rfl |
    rfl | rfl | rfl | rfl | rfl | rfl | rfl | rfl | rfl | rfl | rfl | rfl |
    rfl | rfl | rfl | rfl | rfl | rfl | rfl
  · rw [settingsStep_rank d conn v e hbe]; exact hbe
  · rw [condDelStep_rank d conn v e hbe]; exact hbe
  · rw [condAddStep_rank d conn v e hbe]; exact hbe
  · rw [domainDelStep_rank d conn v e hbe]; exact hbe
  · rw [domainAddStep_rank d conn v e hbe]; exact hbe
  · rw [healthcheckDelStep_rank d conn v e hbe]; exact hbe
  · rw [healthcheckAddStep_rank d conn v e hbe]; exact hbe
  · rw [backendDelStep_rank d conn v e hbe]; exact hbe
  · rw [backendAddStep_rank d conn v e hbe]; exact hbe
  · rw [headerDelStep_rank d conn v e hbe]; exact hbe
  · rw [headerAddStep_rank d conn v e hbe]; exact hbe
  · rw [gzipDelStep_rank d conn v e hbe]; exact hbe
  · rw [gzipAddStep_rank d conn v e hbe]; exact hbe
  · rw [s3DelStep_rank d conn v e hbe]; exact hbe
  · rw [s3AddStep_rank d conn v e hbe]; exact hbe
  · rw [papertrailDelStep_rank d conn v e hbe]; exact hbe
  · rw [papertrailAddStep_rank d conn v e hbe]; exact hbe
  · rw [sumologicDelStep_rank d conn v e hbe]; exact hbe
  · rw [sumologicAddStep_rank d conn v e hbe]; exact hbe
  · rw [gcsDelStep_rank d conn v e hbe]; exact hbe
  · rw [gcsAddStep_rank d conn v e hbe]; exact hbe
  · rw [responseObjectDelStep_rank d conn v e hbe]; exact hbe
  · rw [responseObjectAddStep_rank d conn v e hbe]; exact hbe
  · rw [requestSettingDelStep_rank d conn v e hbe]; exact hbe
  · rw [requestSettingAddStep_rank d conn v e hbe]; exact hbe
  · rw [vclDelStep_rank d conn v e hbe]; exact hbe
  · rw [vclAddStep_rank d conn v e hbe]; exact hbe
  · rw [cacheSettingDelStep_rank d conn v e hbe]; exact hbe
  · rw [cacheSettingAddStep_rank d conn v e hbe]; exact hbe

/-- A call whose rank belongs to the collection phases was issued by
the collection phases, under the working version the version manager
returned. -/
theorem update_mem_seq {d : ResourceData} {conn : Conn} {e : Ev}
    (he : e ∈ (resourceServiceV1Update d conn).1)
    (hlo : 3 ≤ evRank e) (hhi : evRank e ≤ 31) :
    ∃ v tr1, versionStep d conn = (tr1, .ok v) ∧
      e ∈ (seqSteps (blocksList d conn v)).1 := by
  rcases hv : validateVCLs d.new.vcls with - | m
  · rcases hr : renameStep d conn with ⟨tr0, r0⟩
    have htr0 : ∀ x ∈ tr0, evRank x = 0 := by
      have h := renameStep_rank d conn
      rw [hr] at h
      exact h
    cases r0 with
    | some m =>
      rw [update_eq_rename_err hv hr] at he
      have := htr0 e he
      omega
    | none =>
      rcases hn : needsChange d with - | -
      · rw [update_eq_nochange hv hr hn] at he
        have := htr0 e he
        omega
      · rcases hvs : versionStep d conn with ⟨tr1, r1⟩
        have htr1 : ∀ x ∈ tr1, 1 ≤ evRank x ∧ evRank x ≤ 2 := by
          have h := versionStep_rank d conn
          rw [hvs] at h
          exact h
        cases r1 with
        | error m =>
          rw [update_eq_clone_err hv hr hn hvs] at he
          rcases List.mem_append.mp he with he | he
          · have := htr0 e he; omega
          · have := htr1 e he; omega
        | ok v =>
          rcases hs : seqSteps (blocksList d conn v) with ⟨tr2, r2⟩
          cases r2 with
          | some m =>
            rw [update_eq_seq_err hv hr hn hvs hs] at he
            rcases List.mem_append.mp he with he | he
            · have := htr0 e he; omega
            · rcases List.mem_append.mp he with he | he
              · have := htr1 e he; omega
              · exact ⟨v, tr1, rfl, by rw [hs]; exact he⟩
          | none =>
            rcases hf : finalStep d conn v with ⟨tr3, r3⟩
            have htr3 : ∀ x ∈ tr3, 32 ≤ evRank x ∧ evRank x ≤ 33 := by
              have h := finalStep_rank d conn v
              rw [hf] at h
              exact h
            have hin : e ∈ tr0 ++ (tr1 ++ (tr2 ++ tr3)) →
                e ∈ (seqSteps (blocksList d conn v)).1 := by
              intro hm
              rcases List.mem_append.mp hm with hm | hm
              · have := htr0 e hm; omega
              · rcases List.mem_append.mp hm with hm | hm
                · have := htr1 e hm; omega
                · rcases List.mem_append.mp hm with hm | hm
                  · rw [hs]; exact hm
                  · have := htr3 e hm; omega
            cases r3 with
            | error m =>
              rw [update_eq_final_err hv hr hn hvs hs hf] at he
              exact ⟨v, tr1, rfl, hin he⟩
            | ok w =>
              rw [update_eq_final_ok hv hr hn hvs hs hf] at he
              exact ⟨v, tr1, rfl, hin he⟩
  · rw [update_eq_vcl_err hv] at he
    simp at he

/-- Every S3 create call the update ever issues carries a non-empty
access key and a non-empty secret key. -/
theorem s3_create_keys_nonempty {d : ResourceData} {conn : Conn} {v : Nat}
    {o : S3Opts} (he : Ev.createS3 v o ∈ (resourceServiceV1Update d conn).1) :
    o.accessKey ≠ "" ∧ o.secretKey ≠ "" := by
  obtain ⟨w, tr1, -, hseq⟩ := update_mem_seq he (by simp [evRank]) (by simp [evRank])
  have hblock := seq_mem_state d conn w hseq
  simp only [evRank, blockForRank] at hblock
  obtain ⟨-, hmem⟩ := applyIf_mem hblock
  obtain ⟨a, -, evs, hok, hmem⟩ := runAdds_mem hmem
  obtain ⟨hak, hsk, rfl⟩ := s3Build_ok hok
  simp only [List.mem_singleton, Ev.createS3.injEq] at hmem
  obtain ⟨-, rfl⟩ := hmem
  exact ⟨hak, hsk⟩

theorem filter_main_partition (l : List VCLRec) :
    (l.filter (fun r => r.main)).length +
      (l.filter (fun r => !r.main)).length = l.length := by
  induction l with
  | nil => simp
  | cons a t ih =>
    cases ha : a.main <;> simp [List.filter_cons, ha] <;> omega

def sampleBackend443 : Backend :=
  { sampleBackend with port := 443 }

/-! ### Claim theorems -/

/-- C1: the claim states that a difference in any versioned collection
— explicitly including Sumologic and GCS logging — makes the update
obtain a working version and apply the diff.  The code's `needsChange`
attribute list omits `sumologic` and `gcslogging`, so a state that
differs only in the Sumologic collection produces no calls at all: no
clone, no create, although its diff block exists inside the guarded
region.  This evaluates the update at such a state. -/
theorem c1_sumologic_change_ignored :
    dSumoOnly.old.sumologics ≠ dSumoOnly.new.sumologics ∧
    setChanged dSumoOnly.old.sumologics dSumoOnly.new.sumologics = true ∧
    resourceServiceV1Update dSumoOnly connOK = ([], .ok none) := by
  refine ⟨by decide, rfl, rfl⟩

/-- C2 (counterexample): a reconciliation that replaces an S3 logging
record by one with an empty access key surfaces the configuration
error only after mutating network calls (the clone and the S3 delete)
have already been issued, refuting "before any mutating network call". -/
theorem c2_counterexample :
    resourceServiceV1Update dS3BadKey connOK =
      ([.cloneVersion 3, .sleep 7, .deleteS3 4 "s3old"],
        .error (s3KeyErr "s3_access_key" "svc-id")) ∧
    Ev.deleteS3 4 "s3old" ∈ (resourceServiceV1Update dS3BadKey connOK).1 := by
  exact ⟨rfl, by decide⟩

/-- C2 (amended): the VCL-invariant configuration error is detected
before any network call (the run is empty), and a rejected record is
never created (every issued S3 create call carries non-empty keys);
but mutating calls issued earlier in the same invocation may precede a
builder rejection. -/
theorem c2_config_error_scope (d : ResourceData) (conn : Conn) :
    (∀ m, validateVCLs d.new.vcls = some m →
      resourceServiceV1Update d conn = ([], .error m)) ∧
    (∀ v o, Ev.createS3 v o ∈ (resourceServiceV1Update d conn).1 →
      o.accessKey ≠ "" ∧ o.secretKey ≠ "") :=
  ⟨fun _ hm => update_eq_vcl_err hm, fun _ _ he => s3_create_keys_nonempty he⟩

theorem c2_config_error_scope_witness :
    resourceServiceV1Update dVclNoMain connOK =
      ([], .error "if you include VCL configurations, one of them should have main = true") :=
  (c2_config_error_scope dVclNoMain connOK).1 _ rfl

/-- C4: the diff engine computes exactly `old ∖ new` and `new ∖ old`
under full value equality; it is idempotent on equal sets; and a
record whose name is unchanged but whose value changed appears in both
sides (old value removed, new value added). -/
theorem c4_diff_full_value {α : Type} [DecidableEq α] (name : α → String)
    (old new X : List α) :
    (∀ x, x ∈ diffRemove old new ↔ x ∈ old ∧ x ∉ new) ∧
    (∀ x, x ∈ diffAdd old new ↔ x ∈ new ∧ x ∉ old) ∧
    diffRemove X X = [] ∧ diffAdd X X = [] ∧
    (∀ rOld rNew, (old.map name).Nodup → (new.map name).Nodup →
      rOld ∈ old → rNew ∈ new → name rOld = name rNew → rOld ≠ rNew →
      rOld ∈ diffRemove old new ∧ rNew ∈ diffAdd old new) := by
  refine ⟨fun x => mem_diffRemove, fun x => mem_diffAdd, ?_, ?_, ?_⟩
  · simp [diffRemove, List.filter_eq_nil_iff]
  · simp [diffAdd, List.filter_eq_nil_iff]
  · intro rOld rNew hnO hnN hO hN hname hne
    constructor
    · rw [mem_diffRemove]
      refine ⟨hO, fun hc => hne ?_⟩
      exact List.inj_on_of_nodup_map hnN hc hN hname
    · rw [mem_diffAdd]
      refine ⟨hN, fun hc => hne ?_⟩
      exact List.inj_on_of_nodup_map hnO hO hc hname

theorem c4_diff_full_value_witness :
    sampleBackend ∈ diffRemove [sampleBackend] [sampleBackend443] ∧
    sampleBackend443 ∈ diffAdd [sampleBackend] [sampleBackend443] :=
  (c4_diff_full_value Backend.name [sampleBackend] [sampleBackend443]
      [sampleBackend]).2.2.2.2 sampleBackend sampleBackend443
    (by decide) (by decide) (by decide) (by decide) (by decide) (by decide)

/-- C6: the VCL invariant check accepts exactly the states whose VCL
collection is empty or carries exactly one `main` record; on any
violation the update fails with that configuration error having issued
no network call at all (in particular the version manager was never
invoked). -/
theorem c6_vcl_main_invariant (d : ResourceData) (conn : Conn) :
    (validateVCLs d.new.vcls = none ↔
      d.new.vcls = [] ∨
        (d.new.vcls.filter (fun r => r.main)).length = 1) ∧
    (∀ m, validateVCLs d.new.vcls = some m →
      resourceServiceV1Update d conn = ([], .error m)) := by
  constructor
  · have hpart := filter_main_partition d.new.vcls
    unfold validateVCLs
    split_ifs with h1 h2
    · simp only [reduceCtorEq, false_iff]
      intro h
      rcases h with h | h
      · rw [h] at h1; simp at h1
      · omega
    · simp only [reduceCtorEq, false_iff]
      intro h
      rcases h with h | h
      · rw [h] at h2; simp at h2
      · omega
    · simp only [true_iff]
      have key : (d.new.vcls.filter (fun r => r.main)).length = 1 ∨
          d.new.vcls.length = 0 := by omega
      rcases key with key | key
      · right; exact key
      · left; exact List.length_eq_zero.mp key
  · intro m hm
    exact update_eq_vcl_err hm

theorem c6_vcl_main_invariant_witness :
    resourceServiceV1Update dVclNoMain connOK =
      ([], .error "if you include VCL configurations, one of them should have main = true") :=
  (c6_vcl_main_invariant dVclNoMain connOK).2 _ rfl

/-! ### Inversion lemmas for the final validate/activate phase -/

theorem finalStep_invalid {d : ResourceData} {conn : Conn} {v : Nat}
    {m : String} (h : conn.validate v = .ok (false, m)) :
    finalStep d conn v = ([.validateVersion v], .error (invalidErr d.id m)) := by
  simp [finalStep, h]

theorem finalStep_ok_inv {d : ResourceData} {conn : Conn} {v w : Nat}
    {tr3 : List Ev} (h : finalStep d conn v = (tr3, .ok w)) :
    w = v ∧ tr3 = [.validateVersion v, .activateVersion v] ∧
      conn.callErr (.activateVersion v) = none := by
  rcases hval : conn.validate v with e | ⟨b, msg⟩
  · have he : finalStep d conn v =
        ([.validateVersion v], .error (valCheckErr e)) := by
      simp [finalStep, hval]
    rw [he] at h
    simp at h
  · cases b
    · have he : finalStep d conn v =
          ([.validateVersion v], .error (invalidErr d.id msg)) := by
        simp [finalStep, hval]
      rw [he] at h
      simp at h
    · rcases hc : conn.callErr (.activateVersion v) with - | m
      · have he : finalStep d conn v =
            ([.validateVersion v, .activateVersion v], .ok v) := by
          simp [finalStep, hval, hc]
        rw [he] at h
        simp only [Prod.mk.injEq, Except.ok.injEq] at h
        exact ⟨h.2.symm, h.1.symm, rfl⟩
      · have he : finalStep d conn v =
            ([.validateVersion v, .activateVersion v],
              .error (activateErr v m)) := by
          simp [finalStep, hval, hc]
        rw [he] at h
        simp at h

/-- C5: a reconciliation in which the backend reports the working
version invalid returns the invalid-configuration error carrying the
backend's message verbatim, and never issues an activate-version
call; conversely `active_version` is only committed (`.ok (some w)`)
after the activate call for `w` was issued and succeeded. -/
theorem c5_validate_gates_activation (d : ResourceData) (conn : Conn) :
    (∀ v m, Ev.validateVersion v ∈ (resourceServiceV1Update d conn).1 →
      conn.validate v = .ok (false, m) →
      (resourceServiceV1Update d conn).2 = .error (invalidErr d.id m) ∧
        ∀ w, Ev.activateVersion w ∉ (resourceServiceV1Update d conn).1) ∧
    (∀ w, (resourceServiceV1Update d conn).2 = .ok (some w) →
      Ev.activateVersion w ∈ (resourceServiceV1Update d conn).1 ∧
        conn.callErr (Ev.activateVersion w) = none) := by
  constructor
  · intro v m hmem hval
    rcases hv : validateVCLs d.new.vcls with - | m0
    · rcases hr : renameStep d conn with ⟨tr0, r0⟩
      have htr0 : ∀ x ∈ tr0, evRank x = 0 := by
        have h := renameStep_rank d conn
        rw [hr] at h
        exact h
      cases r0 with
      | some m0 =>
        rw [update_eq_rename_err hv hr] at hmem
        have := htr0 _ hmem
        simp [evRank] at this
      | none =>
        rcases hn : needsChange d with - | -
        · rw [update_eq_nochange hv hr hn] at hmem
          have := htr0 _ hmem
          simp [evRank] at this
        · rcases hvs : versionStep d conn with ⟨tr1, r1⟩
          have htr1 : ∀ x ∈ tr1, 1 ≤ evRank x ∧ evRank x ≤ 2 := by
            have h := versionStep_rank d conn
            rw [hvs] at h
            exact h
          cases r1 with
          | error m0 =>
            rw [update_eq_clone_err hv hr hn hvs] at hmem
            rcases List.mem_append.mp hmem with hm | hm
            · have := htr0 _ hm; simp [evRank] at this
            · have := htr1 _ hm; simp [evRank] at this
          | ok ver =>
            rcases hs : seqSteps (blocksList d conn ver) with ⟨tr2, r2⟩
            have htr2 : ∀ x ∈ tr2, 3 ≤ evRank x ∧ evRank x ≤ 31 := by
              have h := seq_rank_bound d conn ver
              rw [hs] at h
              exact h
            cases r2 with
            | some m0 =>
              rw [update_eq_seq_err hv hr hn hvs hs] at hmem
              rcases List.mem_append.mp hmem with hm | hm
              · have := htr0 _ hm; simp [evRank] at this
              · rcases List.mem_append.mp hm with hm | hm
                · have := htr1 _ hm; simp [evRank] at this
                · have := htr2 _ hm; simp [evRank] at this
            | none =>
              rcases hf : finalStep d conn ver with ⟨tr3, r3⟩
              have hvv : v = ver := by
                have hshape := finalStep_shape d conn ver
                rw [hf] at hshape
                simp only at hshape
                have hmem3 : Ev.validateVersion v ∈ tr3 := by
                  have hmem' : Ev.validateVersion v ∈
                      tr0 ++ (tr1 ++ (tr2 ++ tr3)) := by
                    cases r3 with
                    | error m0 =>
                      rw [update_eq_final_err hv hr hn hvs hs hf] at hmem
                      exact hmem
                    | ok w0 =>
                      rw [update_eq_final_ok hv hr hn hvs hs hf] at hmem
                      exact hmem
                  rcases List.mem_append.mp hmem' with hm | hm
                  · exact absurd (htr0 _ hm) (by simp [evRank])
                  · rcases List.mem_append.mp hm with hm | hm
                    · have := htr1 _ hm; simp [evRank] at this
                    · rcases List.mem_append.mp hm with hm | hm
                      · have := htr2 _ hm; simp [evRank] at this
                      · exact hm
                rcases hshape with h3 | h3 <;> rw [h3] at hmem3 <;>
                  simp only [List.mem_cons, List.mem_singleton,
                    List.not_mem_nil, or_false] at hmem3
                · exact (Ev.validateVersion.injEq _ _).mp hmem3
                · rcases hmem3 with hmem3 | hmem3
                  · exact (Ev.validateVersion.injEq _ _).mp hmem3
                  · exact absurd hmem3 (by simp)
              subst hvv
              have hfe := @finalStep_invalid d conn v m hval
              rw [hf] at hfe
              simp only [Prod.mk.injEq] at hfe
              obtain ⟨htr3eq, hr3eq⟩ := hfe
              subst htr3eq
              subst hr3eq
              constructor
              · rw [update_eq_final_err hv hr hn hvs hs hf]
              · intro w hw
                rw [update_eq_final_err hv hr hn hvs hs hf] at hw
                rcases List.mem_append.mp hw with hm | hm
                · have := htr0 _ hm; simp [evRank] at this
                · rcases List.mem_append.mp hm with hm | hm
                  · have := htr1 _ hm; simp [evRank] at this
                  · rcases List.mem_append.mp hm with hm | hm
                    · have := htr2 _ hm; simp [evRank] at this
                    · simp at hm
    · rw [update_eq_vcl_err hv] at hmem
      simp at hmem
  · intro w hok
    rcases hv : validateVCLs d.new.vcls with - | m0
    · rcases hr : renameStep d conn with ⟨tr0, r0⟩
      cases r0 with
      | some m0 => rw [update_eq_rename_err hv hr] at hok; simp at hok
      | none =>
        rcases hn : needsChange d with - | -
        · rw [update_eq_nochange hv hr hn] at hok
          simp at hok
        · rcases hvs : versionStep d conn with ⟨tr1, r1⟩
          cases r1 with
          | error m0 => rw [update_eq_clone_err hv hr hn hvs] at hok; simp at hok
          | ok ver =>
            rcases hs : seqSteps (blocksList d conn ver) with ⟨tr2, r2⟩
            cases r2 with
            | some m0 =>
              rw [update_eq_seq_err hv hr hn hvs hs] at hok
              simp at hok
            | none =>
              rcases hf : finalStep d conn ver with ⟨tr3, r3⟩
              cases r3 with
              | error m0 =>
                rw [update_eq_final_err hv hr hn hvs hs hf] at hok
                simp at hok
              | ok w0 =>
                obtain ⟨hw0, htr3, hcall⟩ := finalStep_ok_inv hf
                have hww : w = w0 := by
                  rw [update_eq_final_ok hv hr hn hvs hs hf] at hok
                  simpa using hok.symm
                refine ⟨?_, ?_⟩
                · rw [update_eq_final_ok hv hr hn hvs hs hf, hww, hw0, htr3]
                  simp
                · rw [hww, hw0]
                  exact hcall
    · rw [update_eq_vcl_err hv] at hok
      simp at hok

theorem c5_validate_gates_activation_witness :
    Ev.activateVersion 4 ∈ (resourceServiceV1Update dVclAdd connOK).1 ∧
      connOK.callErr (Ev.activateVersion 4) = none :=
  (c5_validate_gates_activation dVclAdd connOK).2 4 rfl

/-- C7: the version manager reuses the implicit first draft (version
1, no network call) for a never-activated service; otherwise it clones
the active version, adopts the returned number and performs the fixed
7-second wait; and a clone failure aborts the reconciliation with the
clone call as the very last call issued. -/
theorem c7_version_manager (d : ResourceData) (conn : Conn) :
    (d.activeVersion = 0 → versionStep d conn = ([], .ok 1)) ∧
    (∀ n, d.activeVersion ≠ 0 → conn.clone d.activeVersion = .ok n →
      versionStep d conn =
        ([.cloneVersion d.activeVersion, .sleep 7], .ok n)) ∧
    (∀ m, d.activeVersion ≠ 0 → conn.clone d.activeVersion = .error m →
      validateVCLs d.new.vcls = none →
      conn.callErr (.updateService d.new.name) = none →
      needsChange d = true →
      ∃ t, resourceServiceV1Update d conn =
        (t ++ [.cloneVersion d.activeVersion], .error m)) := by
  refine ⟨fun h => by simp [versionStep, h], fun n h hc => by
    simp [versionStep, h, hc], fun m h hc hvcl hcall hn => ?_⟩
  have hrn : (renameStep d conn).2 = none := by
    unfold renameStep
    split
    · simp [runCalls, hcall]
    · rfl
  rcases hre : renameStep d conn with ⟨tr0, r0⟩
  rw [hre] at hrn
  simp only at hrn
  subst hrn
  have hvs : versionStep d conn =
      ([.cloneVersion d.activeVersion], .error m) := by
    simp [versionStep, h, hc]
  exact ⟨tr0, update_eq_clone_err hvcl hre hn hvs⟩

theorem c7_version_manager_witness :
    versionStep dS3BadKey connOK = ([.cloneVersion 3, .sleep 7], .ok 4) :=
  (c7_version_manager dS3BadKey connOK).2.1 4 (by decide) rfl

/-- C8: within each single collection, all delete calls precede all
create calls: along any trace the update produces, once a create call
of a collection has been issued, every later call of the same
collection is also a create. -/
theorem c8_delete_before_create (d : ResourceData) (conn : Conn) :
    (resourceServiceV1Update d conn).1.Pairwise
      (fun a b => ∀ k, collKind a = some k → collKind b = some k →
        isCreateEv a = true → isCreateEv b = true) := by
  refine (update_trace_sorted d conn).imp ?_
  intro a b hab k hka hkb hca
  by_contra hcb
  have hb : isCreateEv b = false := by
    revert hcb
    cases isCreateEv b <;> simp
  have ha' := evRank_of_kind_create hka hca
  have hb' := evRank_of_kind_delete hkb hb
  omega

theorem c8_delete_before_create_witness :
    (resourceServiceV1Update dS3BadKey connOK).1.Pairwise
      (fun a b => ∀ k, collKind a = some k → collKind b = some k →
        isCreateEv a = true → isCreateEv b = true) :=
  c8_delete_before_create dS3BadKey connOK

/-! ### Helpers for fault-free runs and the S3 key check -/

theorem applyIf_true (s : List Ev × Option String) : applyIf true s = s := rfl

theorem applyIf_runCalls_snd {b : Bool} {conn : Conn} {l : List Ev}
    (hc : ∀ e, conn.callErr e = none) :
    (applyIf b (runCalls conn l)).2 = none := by
  cases b <;> simp [applyIf, runCalls_ok_of_all hc]

theorem applyIf_runAdds_snd {α : Type} {b : Bool} {conn : Conn}
    {step : α → Except String (List Ev)} {l : List α}
    (hc : ∀ e, conn.callErr e = none)
    (hok : ∀ a ∈ l, ∃ evs, step a = .ok evs) :
    (applyIf b (runAdds conn step l)).2 = none := by
  cases b <;> simp [applyIf, runAdds_ok_of_all hc hok]

theorem s3Build_err_shape {v : Nat} {id : String} {s : S3} {m : String}
    (h : s3Build v id s = .error m) :
    m = s3KeyErr "s3_access_key" id ∨ m = s3KeyErr "s3_secret_key" id := by
  unfold s3Build at h
  split at h
  · left
    simp only [Except.error.injEq] at h
    exact h.symm
  · split at h
    · right
      simp only [Except.error.injEq] at h
      exact h.symm
    · simp at h

theorem seqSteps_snd_cons_none {b : List Ev × Option String}
    {bs : List (List Ev × Option String)} (h : b.2 = none) :
    (seqSteps (b :: bs)).2 = (seqSteps bs).2 := by
  rw [seqSteps_cons_none h]

theorem seqSteps_snd_cons_some {b : List Ev × Option String}
    {bs : List (List Ev × Option String)} {m : String} (h : b.2 = some m) :
    (seqSteps (b :: bs)).2 = some m := by
  rw [seqSteps_cons_some h]

theorem runAdds_s3_err {conn : Conn} {v : Nat} {id : String}
    (hc : ∀ e, conn.callErr e = none) {l : List S3}
    (hbad : ∃ s ∈ l, s.accessKey = "" ∨ s.secretKey = "") :
    ∃ m, (runAdds conn (s3Build v id) l).2 = some m ∧
      (m = s3KeyErr "s3_access_key" id ∨ m = s3KeyErr "s3_secret_key" id) := by
  induction l with
  | nil =>
    obtain ⟨s, hs, -⟩ := hbad
    cases hs
  | cons a as ih =>
    rcases hsa : s3Build v id a with m | evs
    · exact ⟨m, by rw [runAdds_cons_err hsa], s3Build_err_shape hsa⟩
    · obtain ⟨ha1, ha2, rfl⟩ := s3Build_ok hsa
      have hbad' : ∃ s ∈ as, s.accessKey = "" ∨ s.secretKey = "" := by
        obtain ⟨s, hs, hk⟩ := hbad
        rcases List.mem_cons.mp hs with rfl | hs
        · rcases hk with hk | hk
          · exact absurd hk ha1
          · exact absurd hk ha2
        · exact ⟨s, hs, hk⟩
      obtain ⟨m, hm, hshape⟩ := ih hbad'
      refine ⟨m, ?_, hshape⟩
      rw [runAdds_cons_ok hsa (runCalls_ok_of_all hc _)]
      exact hm

/-- C10: an S3 logging record in the `toAdd` set with an empty access
or secret key is never created; the reconciliation cannot succeed; and
when the backend itself raises no errors (and every header in the diff
builds), the returned error is precisely the one naming a missing S3
key. -/
theorem c10_s3_empty_key (d : ResourceData) (conn : Conn) (s : S3)
    (hs : s ∈ diffAdd d.old.s3s d.new.s3s)
    (hkey : s.accessKey = "" ∨ s.secretKey = "") :
    (∀ v, Ev.createS3 v (mkS3Opts s) ∉ (resourceServiceV1Update d conn).1) ∧
    (∃ m, (resourceServiceV1Update d conn).2 = .error m) ∧
    ((∀ e, conn.callErr e = none) → (∀ n, ∃ k, conn.clone n = .ok k) →
      (∀ h ∈ diffAdd d.old.headers d.new.headers, ∃ o, buildHeader h = .ok o) →
      validateVCLs d.new.vcls = none →
      (resourceServiceV1Update d conn).2 =
          .error (s3KeyErr "s3_access_key" d.id) ∨
        (resourceServiceV1Update d conn).2 =
          .error (s3KeyErr "s3_secret_key" d.id)) := by
  have hsetS3 : setChanged d.old.s3s d.new.s3s = true :=
    setChanged_true_of_mem_diffAdd hs
  have hneeds : needsChange d = true := by
    unfold needsChange
    rw [hsetS3]
    simp
  refine ⟨?_, ?_, ?_⟩
  · intro v hmem
    obtain ⟨h1, h2⟩ := s3_create_keys_nonempty hmem
    rcases hkey with hk | hk
    · exact h1 (by simpa [mkS3Opts] using hk)
    · exact h2 (by simpa [mkS3Opts] using hk)
  · rcases hv : validateVCLs d.new.vcls with - | m0
    · rcases hr : renameStep d conn with ⟨tr0, r0⟩
      cases r0 with
      | some m0 => exact ⟨m0, by rw [update_eq_rename_err hv hr]⟩
      | none =>
        rcases hvs : versionStep d conn with ⟨tr1, r1⟩
        cases r1 with
        | error m0 => exact ⟨m0, by rw [update_eq_clone_err hv hr hneeds hvs]⟩
        | ok ver =>
          rcases hsq : seqSteps (blocksList d conn ver) with ⟨tr2, r2⟩
          cases r2 with
          | some m0 =>
            exact ⟨m0, by rw [update_eq_seq_err hv hr hneeds hvs hsq]⟩
          | none =>
            exfalso
            have hsq2 : (seqSteps (blocksList d conn ver)).2 = none := by
              rw [hsq]
            have hall := seqSteps_none hsq2
            have hs3 : (s3AddStep d conn ver).2 = none := by
              apply hall
              simp [blocksList]
            unfold s3AddStep at hs3
            rw [hsetS3, applyIf_true] at hs3
            obtain ⟨evs, hevs⟩ := runAdds_none_ok hs3 s hs
            unfold s3Build at hevs
            rcases hkey with hk | hk
            · rw [if_pos hk] at hevs
              exact Except.noConfusion hevs
            · split at hevs <;> simp [hk] at hevs
    · exact ⟨m0, by rw [update_eq_vcl_err hv]⟩
  · intro hc hclone hhdr hv
    have hrn : renameStep d conn = ((renameStep d conn).1, none) := by
      unfold renameStep
      split
      · rw [runCalls_ok_of_all hc]
      · rfl
    have hver : ∃ ver, versionStep d conn = ((versionStep d conn).1, .ok ver) := by
      unfold versionStep
      split
      · exact ⟨1, rfl⟩
      · obtain ⟨k, hk⟩ := hclone d.activeVersion
        rw [hk]
        exact ⟨k, rfl⟩
    obtain ⟨ver, hvs⟩ := hver
    obtain ⟨m, hm2, hshape⟩ :=
      @runAdds_s3_err conn ver d.id hc (diffAdd d.old.s3s d.new.s3s)
        ⟨s, hs, hkey⟩
    have hseqsnd : (seqSteps (blocksList d conn ver)).2 = some m := by
      simp only [blocksList]
      rw [seqSteps_snd_cons_none (by unfold settingsStep; exact applyIf_runCalls_snd hc),
        seqSteps_snd_cons_none (by unfold condDelStep; exact applyIf_runCalls_snd hc),
        seqSteps_snd_cons_none (by
          unfold condAddStep
          exact applyIf_runAdds_snd hc (fun a _ => ⟨_, rfl⟩)),
        seqSteps_snd_cons_none (by unfold domainDelStep; exact applyIf_runCalls_snd hc),
        seqSteps_snd_cons_none (by
          unfold domainAddStep
          exact applyIf_runAdds_snd hc (fun a _ => ⟨_, rfl⟩)),
        seqSteps_snd_cons_none (by unfold healthcheckDelStep; exact applyIf_runCalls_snd hc),
        seqSteps_snd_cons_none (by
          unfold healthcheckAddStep
          exact applyIf_runAdds_snd hc (fun a _ => ⟨_, rfl⟩)),
        seqSteps_snd_cons_none (by unfold backendDelStep; exact applyIf_runCalls_snd hc),
        seqSteps_snd_cons_none (by
          unfold backendAddStep
          exact applyIf_runAdds_snd hc (fun a _ => ⟨_, rfl⟩)),
        seqSteps_snd_cons_none (by unfold headerDelStep; exact applyIf_runCalls_snd hc),
        seqSteps_snd_cons_none (by
          unfold headerAddStep
          refine applyIf_runAdds_snd hc (fun a ha => ?_)
          obtain ⟨o, ho⟩ := hhdr a ha
          exact ⟨[Ev.createHeader ver o], by simp [ho, Except.map]⟩),
        seqSteps_snd_cons_none (by unfold gzipDelStep; exact applyIf_runCalls_snd hc),
        seqSteps_snd_cons_none (by
          unfold gzipAddStep
          exact applyIf_runAdds_snd hc (fun a _ => ⟨_, rfl⟩)),
        seqSteps_snd_cons_none (by unfold s3DelStep; exact applyIf_runCalls_snd hc),
        seqSteps_snd_cons_some (by
          unfold s3AddStep
          rw [hsetS3, applyIf_true]
          exact hm2)]
    rcases hsq : seqSteps (blocksList d conn ver) with ⟨tr2, r2⟩
    rw [hsq] at hseqsnd
    simp only at hseqsnd
    subst hseqsnd
    have := update_eq_seq_err hv hrn hneeds hvs hsq
    rw [this]
    rcases hshape with h | h
    · left; rw [h]
    · right; rw [h]

theorem c10_s3_empty_key_witness :
    (∀ v, Ev.createS3 v (mkS3Opts sampleS3NoKey) ∉
      (resourceServiceV1Update dS3BadKey connOK).1) ∧
    (∃ m, (resourceServiceV1Update dS3BadKey connOK).2 = .error m) :=
  have h := c10_s3_empty_key dS3BadKey connOK sampleS3NoKey
    (by decide) (Or.inl rfl)
  ⟨h.1, h.2.1⟩

/-! ### Contiguity of a phase's calls inside the collection run -/

theorem seqSteps_decomp {bs : List (List Ev × Option String)} {e : Ev}
    (he : e ∈ (seqSteps bs).1) :
    ∃ b ∈ bs, e ∈ b.1 ∧
      ∃ X Y, (seqSteps bs).1 = X ++ b.1 ++ Y := by
  induction bs with
  | nil => simp [seqSteps] at he
  | cons b bs ih =>
    rcases hb : b.2 with - | m
    · rw [seqSteps_cons_none hb] at he ⊢
      dsimp only at he ⊢
      rcases List.mem_append.mp he with he | he
      · exact ⟨b, List.mem_cons_self _ _, he, [], (seqSteps bs).1, rfl⟩
      · obtain ⟨c, hc, hce, X, Y, hXY⟩ := ih he
        refine ⟨c, List.mem_cons_of_mem _ hc, hce, b.1 ++ X, Y, ?_⟩
        rw [hXY]
        simp [List.append_assoc]
    · rw [seqSteps_cons_some hb] at he ⊢
      exact ⟨b, List.mem_cons_self _ _, he, [], [], by simp⟩

/-- A rank-29 call (VCL create or VCL activate) sits inside the VCL
add phase, whose calls appear contiguously in the collection run. -/
theorem seq_vcl_decomp {d : ResourceData} {conn : Conn} {ver : Nat} {e : Ev}
    (he : e ∈ (seqSteps (blocksList d conn ver)).1) (hrank : evRank e = 29) :
    e ∈ (vclAddStep d conn ver).1 ∧
      ∃ X Y, (seqSteps (blocksList d conn ver)).1 =
        X ++ (vclAddStep d conn ver).1 ++ Y := by
  obtain ⟨b, hb, hbe, X, Y, hXY⟩ := seqSteps_decomp he
  simp only [blocksList, List.mem_cons, List.not_mem_nil, or_false] at hb
  rcases hb with rfl | rfl | rfl | rfl | rfl | rfl | rfl | rfl | rfl | rfl |
    rfl | rfl | rfl | rfl | rfl | rfl | rfl | rfl | rfl | rfl | rfl | rfl |
    rfl | rfl | rfl | rfl | rfl | rfl | rfl
  · rw [settingsStep_rank d conn ver e hbe] at hrank; omega
  · rw [condDelStep_rank d conn ver e hbe] at hrank; omega
  · rw [condAddStep_rank d conn ver e hbe] at hrank; omega
  · rw [domainDelStep_rank d conn ver e hbe] at hrank; omega
  · rw [domainAddStep_rank d conn ver e hbe] at hrank; omega
  · rw [healthcheckDelStep_rank d conn ver e hbe] at hrank; omega
  · rw [healthcheckAddStep_rank d conn ver e hbe] at hrank; omega
  · rw [backendDelStep_rank d conn ver e hbe] at hrank; omega
  · rw [backendAddStep_rank d conn ver e hbe] at hrank; omega
  · rw [headerDelStep_rank d conn ver e hbe] at hrank; omega
  · rw [headerAddStep_rank d conn ver e hbe] at hrank; omega
  · rw [gzipDelStep_rank d conn ver e hbe] at hrank; omega
  · rw [gzipAddStep_rank d conn ver e hbe] at hrank; omega
  · rw [s3DelStep_rank d conn ver e hbe] at hrank; omega
  · rw [s3AddStep_rank d conn ver e hbe] at hrank; omega
  · rw [papertrailDelStep_rank d conn ver e hbe] at hrank; omega
  · rw [papertrailAddStep_rank d conn ver e hbe] at hrank; omega
  · rw [sumologicDelStep_rank d conn ver e hbe] at hrank; omega
  · rw [sumologicAddStep_rank d conn ver e hbe] at hrank; omega
  · rw [gcsDelStep_rank d conn ver e hbe] at hrank; omega
  · rw [gcsAddStep_rank d conn ver e hbe] at hrank; omega
  · rw [responseObjectDelStep_rank d conn ver e hbe] at hrank; omega
  · rw [responseObjectAddStep_rank d conn ver e hbe] at hrank; omega
  · rw [requestSettingDelStep_rank d conn ver e hbe] at hrank; omega
  · rw [requestSettingAddStep_rank d conn ver e hbe] at hrank; omega
  · rw [vclDelStep_rank d conn ver e hbe] at hrank; omega
  · exact ⟨hbe, X, Y, hXY⟩
  · rw [cacheSettingDelStep_rank d conn ver e hbe] at hrank; omega
  · rw [cacheSettingAddStep_rank d conn ver e hbe] at hrank; omega

/-- Like `update_mem_seq`, but also exposes the collection run as a
contiguous segment of the whole trace. -/
theorem update_mem_seq_decomp {d : ResourceData} {conn : Conn} {e : Ev}
    (he : e ∈ (resourceServiceV1Update d conn).1)
    (hlo : 3 ≤ evRank e) (hhi : evRank e ≤ 31) :
    ∃ ver P Q, e ∈ (seqSteps (blocksList d conn ver)).1 ∧
      (resourceServiceV1Update d conn).1 =
        P ++ ((seqSteps (blocksList d conn ver)).1 ++ Q) := by
  rcases hv : validateVCLs d.new.vcls with - | m
  · rcases hr : renameStep d conn with ⟨tr0, r0⟩
    have htr0 : ∀ x ∈ tr0, evRank x = 0 := by
      have h := renameStep_rank d conn
      rw [hr] at h
      exact h
    cases r0 with
    | some m =>
      rw [update_eq_rename_err hv hr] at he
      have := htr0 e he
      omega
    | none =>
      rcases hn : needsChange d with - | -
      · rw [update_eq_nochange hv hr hn] at he
        have := htr0 e he
        omega
      · rcases hvs : versionStep d conn with ⟨tr1, r1⟩
        have htr1 : ∀ x ∈ tr1, 1 ≤ evRank x ∧ evRank x ≤ 2 := by
          have h := versionStep_rank d conn
          rw [hvs] at h
          exact h
        cases r1 with
        | error m =>
          rw [update_eq_clone_err hv hr hn hvs] at he
          rcases List.mem_append.mp he with he | he
          · have := htr0 e he; omega
          · have := htr1 e he; omega
        | ok ver =>
          rcases hs : seqSteps (blocksList d conn ver) with ⟨tr2, r2⟩
          cases r2 with
          | some m =>
            rw [update_eq_seq_err hv hr hn hvs hs] at he
            have hmem : e ∈ tr2 := by
              rcases List.mem_append.mp he with he | he
              · have := htr0 e he; omega
              · rcases List.mem_append.mp he with he | he
                · have := htr1 e he; omega
                · exact he
            refine ⟨ver, tr0 ++ tr1, [], by rw [hs]; exact hmem, ?_⟩
            rw [update_eq_seq_err hv hr hn hvs hs, hs]
            simp [List.append_assoc]
          | none =>
            rcases hf : finalStep d conn ver with ⟨tr3, r3⟩
            have htr3 : ∀ x ∈ tr3, 32 ≤ evRank x ∧ evRank x ≤ 33 := by
              have h := finalStep_rank d conn ver
              rw [hf] at h
              exact h
            have hmem : e ∈ tr0 ++ (tr1 ++ (tr2 ++ tr3)) → e ∈ tr2 := by
              intro hm
              rcases List.mem_append.mp hm with hm | hm
              · have := htr0 e hm; omega
              · rcases List.mem_append.mp hm with hm | hm
                · have := htr1 e hm; omega
                · rcases List.mem_append.mp hm with hm | hm
                  · exact hm
                  · have := htr3 e hm; omega
            cases r3 with
            | error m =>
              rw [update_eq_final_err hv hr hn hvs hs hf] at he
              refine ⟨ver, tr0 ++ tr1, tr3, by rw [hs]; exact hmem he, ?_⟩
              rw [update_eq_final_err hv hr hn hvs hs hf, hs]
              simp [List.append_assoc]
            | ok w =>
              rw [update_eq_final_ok hv hr hn hvs hs hf] at he
              refine ⟨ver, tr0 ++ tr1, tr3, by rw [hs]; exact hmem he, ?_⟩
              rw [update_eq_final_ok hv hr hn hvs hs hf, hs]
              simp [List.append_assoc]
  · rw [update_eq_vcl_err hv] at he
    simp at he

/-! ### The VCL add phase: create then activate -/

theorem runAdds_vcl_adj {conn : Conn} {w : Nat} {l : List VCLRec} {r : VCLRec}
    (hinj : ∀ a ∈ l, mkVCLOpts a = mkVCLOpts r → a = r)
    (hmain : r.main = true)
    (hok : conn.callErr (Ev.createVCL w (mkVCLOpts r)) = none)
    (hmem : Ev.createVCL w (mkVCLOpts r) ∈ (runAdds conn (vclBuild w) l).1) :
    ∃ t₁ t₂, (runAdds conn (vclBuild w) l).1 =
      t₁ ++ Ev.createVCL w (mkVCLOpts r) ::
        Ev.activateVCL w r.name :: t₂ := by
  induction l with
  | nil => simp [runAdds] at hmem
  | cons a as ih =>
    by_cases har : a = r
    · subst har
      have hba : vclBuild w a =
          .ok [Ev.createVCL w (mkVCLOpts a), Ev.activateVCL w a.name] := by
        simp [vclBuild, hmain]
      rcases h2 : conn.callErr (Ev.activateVCL w a.name) with - | m
      · have hrc : runCalls conn
            [Ev.createVCL w (mkVCLOpts a), Ev.activateVCL w a.name] =
            ([Ev.createVCL w (mkVCLOpts a), Ev.activateVCL w a.name],
              none) := by
          simp [runCalls, hok, h2]
        rw [runAdds_cons_ok hba hrc]
        exact ⟨[], (runAdds conn (vclBuild w) as).1, rfl⟩
      · have hrc : runCalls conn
            [Ev.createVCL w (mkVCLOpts a), Ev.activateVCL w a.name] =
            ([Ev.createVCL w (mkVCLOpts a), Ev.activateVCL w a.name],
              some m) := by
          simp [runCalls, hok, h2]
        rw [runAdds_cons_fail hba hrc]
        exact ⟨[], [], rfl⟩
    · have hba : vclBuild w a = .ok ((Ev.createVCL w (mkVCLOpts a)) ::
          (if a.main then [Ev.activateVCL w a.name] else [])) := rfl
      have hnotin : Ev.createVCL w (mkVCLOpts r) ∉
          (Ev.createVCL w (mkVCLOpts a)) ::
            (if a.main then [Ev.activateVCL w a.name] else []) := by
        intro hin
        rcases List.mem_cons.mp hin with heq | hin
        · injection heq with h1 h2
          exact har (hinj a (List.mem_cons_self _ _) h2.symm)
        · cases ham : a.main
          · rw [ham] at hin; simp at hin
          · rw [ham] at hin
            simp only [if_true, List.mem_singleton] at hin
            exact Ev.noConfusion hin
      rcases hrc : runCalls conn ((Ev.createVCL w (mkVCLOpts a)) ::
          (if a.main then [Ev.activateVCL w a.name] else [])) with ⟨tr, res⟩
      cases res with
      | some m =>
        rw [runAdds_cons_fail hba hrc] at hmem
        have h0 : Ev.createVCL w (mkVCLOpts r) ∈
            (runCalls conn ((Ev.createVCL w (mkVCLOpts a)) ::
              (if a.main then [Ev.activateVCL w a.name] else []))).1 := by
          rw [hrc]
          exact hmem
        exact absurd (runCalls_mem h0) hnotin
      | none =>
        rw [runAdds_cons_ok hba hrc] at hmem ⊢
        have htr : tr = (Ev.createVCL w (mkVCLOpts a)) ::
            (if a.main then [Ev.activateVCL w a.name] else []) := by
          have h0 : (runCalls conn ((Ev.createVCL w (mkVCLOpts a)) ::
              (if a.main then [Ev.activateVCL w a.name] else []))).2 =
              none := by
            rw [hrc]
          have h := runCalls_none_eq h0
          rw [hrc] at h
          exact h
        have hmem' : Ev.createVCL w (mkVCLOpts r) ∈
            (runAdds conn (vclBuild w) as).1 := by
          rcases List.mem_append.mp hmem with hm | hm
          · rw [htr] at hm
            exact absurd hm hnotin
          · exact hm
        obtain ⟨t₁, t₂, heq⟩ :=
          ih (fun x hx => hinj x (List.mem_cons_of_mem _ hx)) hmem'
        refine ⟨tr ++ t₁, t₂, ?_⟩
        rw [heq]
        simp [List.append_assoc]

/-- Any activate-VCL call the update issues names a `main = true`
record of the VCL `toAdd` set, under the working version. -/
theorem update_activateVCL_src {d : ResourceData} {conn : Conn}
    {v : Nat} {n : String}
    (hmem : Ev.activateVCL v n ∈ (resourceServiceV1Update d conn).1) :
    ∃ r ∈ diffAdd d.old.vcls d.new.vcls, r.main = true ∧ r.name = n := by
  obtain ⟨ver, P, Q, hseq, -⟩ :=
    update_mem_seq_decomp hmem (by simp [evRank]) (by simp [evRank])
  obtain ⟨hbe, -⟩ := seq_vcl_decomp hseq rfl
  unfold vclAddStep at hbe
  obtain ⟨-, hbe⟩ := applyIf_mem hbe
  obtain ⟨a, ha, evs, hok, hin⟩ := runAdds_mem hbe
  rw [vclBuild_ok hok] at hin
  rcases List.mem_cons.mp hin with heq | hin
  · exact Ev.noConfusion heq
  · cases ham : a.main
    · rw [ham] at hin; simp at hin
    · rw [ham] at hin
      simp only [if_true, List.mem_singleton] at hin
      injection hin with h1 h2
      exact ⟨a, ha, ham, h2.symm⟩

/-- C9: when a VCL record of the `toAdd` set with `main = true` is
created (and the create call succeeds), the activate-VCL call for it
is issued immediately after the create call; every activate-VCL call
the update issues belongs to a `main = true` record of the VCL add
set; and a non-main added record never triggers an activate-VCL call.
Names are assumed unique within the desired VCL collection (the data
model keys records by name). -/
theorem c9_vcl_activation (d : ResourceData) (conn : Conn)
    (hnodup : (d.new.vcls.map (fun r => r.name)).Nodup) :
    (∀ r, r ∈ diffAdd d.old.vcls d.new.vcls → r.main = true →
      ∀ v, Ev.createVCL v (mkVCLOpts r) ∈ (resourceServiceV1Update d conn).1 →
        conn.callErr (Ev.createVCL v (mkVCLOpts r)) = none →
        ∃ t₁ t₂, (resourceServiceV1Update d conn).1 =
          t₁ ++ Ev.createVCL v (mkVCLOpts r) ::
            Ev.activateVCL v r.name :: t₂) ∧
    (∀ v n, Ev.activateVCL v n ∈ (resourceServiceV1Update d conn).1 →
      ∃ r ∈ diffAdd d.old.vcls d.new.vcls, r.main = true ∧ r.name = n) ∧
    (∀ r, r ∈ diffAdd d.old.vcls d.new.vcls → r.main = false →
      ∀ v, Ev.activateVCL v r.name ∉ (resourceServiceV1Update d conn).1) := by
  have hinj_new : ∀ a ∈ d.new.vcls, ∀ b ∈ d.new.vcls,
      a.name = b.name → a = b :=
    fun a ha b hb h => List.inj_on_of_nodup_map hnodup ha hb h
  refine ⟨?_, fun v n hmem => update_activateVCL_src hmem, ?_⟩
  · intro r hr hmain v hmem hcall
    obtain ⟨ver, P, Q, hseq, hPQ⟩ :=
      update_mem_seq_decomp hmem (by simp [evRank]) (by simp [evRank])
    obtain ⟨hbe, X, Y, hXY⟩ := seq_vcl_decomp hseq rfl
    have hv_eq : v = ver := by
      have hbe' := hbe
      unfold vclAddStep at hbe'
      obtain ⟨-, hbe'⟩ := applyIf_mem hbe'
      obtain ⟨a, ha, evs, hok, hin⟩ := runAdds_mem hbe'
      rw [vclBuild_ok hok] at hin
      rcases List.mem_cons.mp hin with heq | hin
      · injection heq with h1 h2
      · cases ham : a.main
        · rw [ham] at hin; simp at hin
        · rw [ham] at hin
          simp only [if_true, List.mem_singleton] at hin
          exact Ev.noConfusion hin
    rw [hv_eq] at hbe hcall ⊢
    have hset : setChanged d.old.vcls d.new.vcls = true :=
      setChanged_true_of_mem_diffAdd hr
    have hstep : vclAddStep d conn ver =
        runAdds conn (vclBuild ver) (diffAdd d.old.vcls d.new.vcls) := by
      unfold vclAddStep
      rw [hset, applyIf_true]
    rw [hstep] at hbe hXY
    have hinj : ∀ a ∈ diffAdd d.old.vcls d.new.vcls,
        mkVCLOpts a = mkVCLOpts r → a = r := by
      intro a ha heq
      have hna : a.name = r.name := congrArg VCLOpts.name heq
      exact hinj_new a (mem_diffAdd.mp ha).1 r (mem_diffAdd.mp hr).1 hna
    obtain ⟨t₁, t₂, hemit⟩ := runAdds_vcl_adj hinj hmain hcall hbe
    refine ⟨P ++ (X ++ t₁), t₂ ++ (Y ++ Q), ?_⟩
    rw [hPQ, hXY, hemit]
    simp [List.append_assoc]
  · intro r hr hmain v hmem
    obtain ⟨a, ha, ham, hname⟩ := update_activateVCL_src hmem
    have haeq : a = r :=
      hinj_new a (mem_diffAdd.mp ha).1 r (mem_diffAdd.mp hr).1 hname
    rw [haeq, hmain] at ham
    exact Bool.noConfusion ham

theorem c9_vcl_activation_witness :
    ∃ t₁ t₂, (resourceServiceV1Update dVclFresh connOK).1 =
      t₁ ++ Ev.createVCL 4 (mkVCLOpts sampleVCLMain) ::
        Ev.activateVCL 4 sampleVCLMain.name :: t₂ :=
  (c9_vcl_activation dVclFresh connOK (by decide)).1 sampleVCLMain
    (by decide) rfl 4 (by decide) rfl

theorem seqSteps_peel {b : List Ev × Option String}
    {bs : List (List Ev × Option String)} {e : Ev}
    (he : e ∈ (seqSteps (b :: bs)).1) (hne : e ∉ b.1) :
    b.2 = none ∧ e ∈ (seqSteps bs).1 ∧
      (seqSteps (b :: bs)).1 = b.1 ++ (seqSteps bs).1 := by
  rcases hb : b.2 with - | m
  · rw [seqSteps_cons_none hb] at he ⊢
    dsimp only at he ⊢
    rcases List.mem_append.mp he with he | he
    · exact absurd he hne
    · exact ⟨rfl, he, rfl⟩
  · rw [seqSteps_cons_some hb] at he
    exact absurd he hne

/-- C3: the collections are applied in the fixed source order (the
trace is ordered by phase rank), and in particular when a
reconciliation adds a condition and a backend referencing it, the
condition's create call is issued strictly before the backend's
create call. -/
theorem c3_fixed_order (d : ResourceData) (conn : Conn) :
    (resourceServiceV1Update d conn).1.Pairwise
      (fun a b => evRank a ≤ evRank b) ∧
    (∀ c b, c ∈ diffAdd d.old.conditions d.new.conditions →
      b ∈ diffAdd d.old.backends d.new.backends →
      b.requestCondition = c.name →
      ∀ v, Ev.createBackend v (mkBackendOpts b) ∈
          (resourceServiceV1Update d conn).1 →
      ∃ t₁ t₂, (resourceServiceV1Update d conn).1 =
        t₁ ++ Ev.createCondition v (mkConditionOpts c) :: t₂ ∧
        Ev.createBackend v (mkBackendOpts b) ∈ t₂) := by
  refine ⟨update_trace_sorted d conn, ?_⟩
  intro c b hc hb href v hmem
  obtain ⟨ver, P, Q, hseq, hPQ⟩ :=
    update_mem_seq_decomp hmem (by simp [evRank]) (by simp [evRank])
  have hv_eq : v = ver := by
    have hblock := seq_mem_state d conn ver hseq
    simp only [evRank, blockForRank] at hblock
    obtain ⟨-, hblock⟩ := applyIf_mem hblock
    obtain ⟨a, -, evs, hok, hin⟩ := runAdds_mem hblock
    simp only [Except.ok.injEq] at hok
    subst hok
    simp only [List.mem_singleton] at hin
    injection hin with h1 h2
  rw [hv_eq] at hmem hseq ⊢
  have hbl : blocksList d conn ver =
      settingsStep d conn ver :: condDelStep d conn ver ::
      condAddStep d conn ver :: domainDelStep d conn ver ::
      domainAddStep d conn ver :: healthcheckDelStep d conn ver ::
      healthcheckAddStep d conn ver :: backendDelStep d conn ver ::
      backendAddStep d conn ver :: headerDelStep d conn ver ::
      headerAddStep d conn ver :: gzipDelStep d conn ver ::
      gzipAddStep d conn ver :: s3DelStep d conn ver ::
      s3AddStep d conn ver :: papertrailDelStep d conn ver ::
      papertrailAddStep d conn ver :: sumologicDelStep d conn ver ::
      sumologicAddStep d conn ver :: gcsDelStep d conn ver ::
      gcsAddStep d conn ver :: responseObjectDelStep d conn ver ::
      responseObjectAddStep d conn ver :: requestSettingDelStep d conn ver ::
      requestSettingAddStep d conn ver :: vclDelStep d conn ver ::
      vclAddStep d conn ver :: cacheSettingDelStep d conn ver ::
      cacheSettingAddStep d conn ver :: [] := rfl
  rw [hbl] at hseq hPQ
  obtain ⟨-, hseq1, heq0⟩ := seqSteps_peel hseq (by
    intro hm
    have := settingsStep_rank d conn ver _ hm
    simp [evRank] at this)
  obtain ⟨-, hseq2, heq1⟩ := seqSteps_peel hseq1 (by
    intro hm
    have := condDelStep_rank d conn ver _ hm
    simp [evRank] at this)
  obtain ⟨hcond_none, hseq3, heq2⟩ := seqSteps_peel hseq2 (by
    intro hm
    have := condAddStep_rank d conn ver _ hm
    simp [evRank] at this)
  have hsetc : setChanged d.old.conditions d.new.conditions = true :=
    setChanged_true_of_mem_diffAdd hc
  have hcstep : condAddStep d conn ver =
      runAdds conn
        (fun c => .ok [Ev.createCondition ver (mkConditionOpts c)])
        (diffAdd d.old.conditions d.new.conditions) := by
    unfold condAddStep
    rw [hsetc, applyIf_true]
  have hccreate : Ev.createCondition ver (mkConditionOpts c) ∈
      (condAddStep d conn ver).1 := by
    rw [hcstep]
    rw [hcstep] at hcond_none
    exact runAdds_none_mem hcond_none hc rfl (List.mem_singleton_self _)
  obtain ⟨u, w, huw⟩ := List.append_of_mem hccreate
  refine ⟨P ++ (settingsStep d conn ver).1 ++ (condDelStep d conn ver).1 ++ u,
    w ++ (seqSteps (domainDelStep d conn ver ::
      domainAddStep d conn ver :: healthcheckDelStep d conn ver ::
      healthcheckAddStep d conn ver :: backendDelStep d conn ver ::
      backendAddStep d conn ver :: headerDelStep d conn ver ::
      headerAddStep d conn ver :: gzipDelStep d conn ver ::
      gzipAddStep d conn ver :: s3DelStep d conn ver ::
      s3AddStep d conn ver :: papertrailDelStep d conn ver ::
      papertrailAddStep d conn ver :: sumologicDelStep d conn ver ::
      sumologicAddStep d conn ver :: gcsDelStep d conn ver ::
      gcsAddStep d conn ver :: responseObjectDelStep d conn ver ::
      responseObjectAddStep d conn ver :: requestSettingDelStep d conn ver ::
      requestSettingAddStep d conn ver :: vclDelStep d conn ver ::
      vclAddStep d conn ver :: cacheSettingDelStep d conn ver ::
      cacheSettingAddStep d conn ver :: [])).1 ++ Q, ?_, ?_⟩
  · rw [hPQ, heq0, heq1, heq2, huw]
    simp [List.append_assoc]
  · simp only [List.mem_append]
    left
    right
    exact hseq3

theorem c3_fixed_order_witness :
    ∃ t₁ t₂, (resourceServiceV1Update dCondBackend connOK).1 =
      t₁ ++ Ev.createCondition 4 (mkConditionOpts sampleCondition) :: t₂ ∧
      Ev.createBackend 4 (mkBackendOpts sampleBackend) ∈ t₂ :=
  (c3_fixed_order dCondBackend connOK).2 sampleCondition sampleBackend
    (by decide) (by decide) (by decide) 4 (by decide)

end Fastly
